import Mathlib

/-!
Verification of the PCS-Pro move-inventory engine.

The definitions below are a shallow embedding of the inventory module of
`src/unnamed/part_000` (the full-featured revision of the page script: category
catalog, weight coercion, per-room recalculation, edit-mode panels, action
menus, label settings, move/rename/delete handlers, persistence with the
`editMode`-stripping serializer).  JavaScript numbers are modelled as exact
rationals; the non-finite values (NaN, plus or minus Infinity) are collapsed
into a single constructor, which is adequate because every use in the source
guards with `Number.isFinite` before using a converted number.
-/

namespace PCS

/-- A JavaScript value as it can appear in the weight field of a stored item:
a finite number, a non-finite number (NaN or an infinity), a string, a
boolean, `null`, or `undefined`. -/
inductive JSValue where
  | num (q : ℚ)
  | nanv
  | str (s : String)
  | boolv (b : Bool)
  | nullv
  | undef
  deriving DecidableEq

/-- Numeric value of a digit string, most significant digit first. -/
def digitsToNat (ds : List Char) : ℕ :=
  ds.foldl (fun n c => 10 * n + (c.toNat - 48)) 0

/-- Consume a maximal run of decimal digits. -/
def takeDigits (cs : List Char) : List Char × List Char :=
  (cs.takeWhile Char.isDigit, cs.dropWhile Char.isDigit)

/-- Strip leading and trailing whitespace from a character list. -/
def charsTrim (cs : List Char) : List Char :=
  ((cs.dropWhile Char.isWhitespace).reverse.dropWhile Char.isWhitespace).reverse

/-- JavaScript `String.prototype.trim`. -/
def jsTrim (s : String) : String :=
  String.mk (charsTrim s.data)

/-- Core of the decimal-numeral reading of JavaScript `Number(string)`:
optional sign, digits with an optional fractional part, and an optional
decimal exponent.  Returns `none` when the string does not denote a finite
number under this grammar (hexadecimal, binary and octal literals and the
`Infinity` spellings are not modelled; they never occur in the repository's
data and `Infinity` is rejected by the `Number.isFinite` guard anyway). -/
def readDecCore (cs : List Char) : Option ℚ :=
  let signAndRest : ℚ × List Char :=
    match cs with
    | '-' :: t => (-1, t)
    | '+' :: t => (1, t)
    | _ => (1, cs)
  let sign := signAndRest.1
  let cs1 := signAndRest.2
  let ip := (takeDigits cs1).1
  let cs2 := (takeDigits cs1).2
  let fracAndRest : List Char × List Char :=
    match cs2 with
    | '.' :: t => takeDigits t
    | _ => ([], cs2)
  let fp := fracAndRest.1
  let cs3 := fracAndRest.2
  if ip.isEmpty ∧ fp.isEmpty then none
  else
    let mantissa : ℚ := (digitsToNat ip : ℚ) + (digitsToNat fp : ℚ) / ((10 : ℚ) ^ fp.length)
    match cs3 with
    | [] => some (sign * mantissa)
    | c :: t =>
      if c = 'e' ∨ c = 'E' then
        let esignAndRest : ℤ × List Char :=
          match t with
          | '-' :: u => (-1, u)
          | '+' :: u => (1, u)
          | _ => (1, t)
        let ed := (takeDigits esignAndRest.2).1
        let rest := (takeDigits esignAndRest.2).2
        if ed.isEmpty ∨ ¬ rest.isEmpty then none
        else some (sign * mantissa * (10 : ℚ) ^ (esignAndRest.1 * (digitsToNat ed : ℤ)))
      else none

/-- JavaScript `Number(string)` on the decimal fragment: surrounding
whitespace is trimmed and the empty string converts to `0`. -/
def readDecimal (s : String) : Option ℚ :=
  let cs := charsTrim s.data
  if cs.isEmpty then some 0 else readDecCore cs

/-- JavaScript `Number(v)` restricted to finite results: `none` stands for a
non-finite conversion result (NaN or an infinity), which the source always
discards through `Number.isFinite`. -/
def jsToNumber : JSValue → Option ℚ
  | .num q => some q
  | .nanv => none
  | .str s => readDecimal s
  | .boolv b => some (if b then 1 else 0)
  | .nullv => some 0
  | .undef => none

/-- `coerceWeight` from src/unnamed/part_000 lines 212-218: keep a finite
positive numeric weight, otherwise fall back. -/
def coerceWeight (weight : JSValue) (fallbackWeight : ℚ) : ℚ :=
  match jsToNumber weight with
  | some q => if 0 < q then q else fallbackWeight
  | none => fallbackWeight

/-- JavaScript `Math.round`: round half toward positive infinity, that is
the floor of `q + 1/2`, computed by floor division so that the kernel can
evaluate it (`jsRound_eq_floor` below identifies it with the floor). -/
def jsRound (q : ℚ) : ℤ :=
  Int.fdiv (2 * q.num + q.den) (2 * q.den)

/-- A category of the fixed catalog. -/
structure Category where
  label : String
  defaultWeight : ℚ
  deriving DecidableEq

/-- `CATEGORY_DEFINITIONS` from src/unnamed/part_000 lines 167-176. -/
def CATEGORY_DEFINITIONS : List Category :=
  [ ⟨"Moving Box", 40⟩,
    ⟨"Couch / Sofa", 250⟩,
    ⟨"Chair", 40⟩,
    ⟨"Bed", 175⟩,
    ⟨"Dresser", 150⟩,
    ⟨"Table", 200⟩,
    ⟨"Appliance", 300⟩,
    ⟨"Miscellaneous", 40⟩ ]

/-- `getCategoryDefinition`: exact-match lookup with the final catalog entry
("Miscellaneous") as fallback. -/
def getCategoryDefinition (categoryLabel : String) : Category :=
  match CATEGORY_DEFINITIONS.find? (fun category => category.label = categoryLabel) with
  | some category => category
  | none => ⟨"Miscellaneous", 40⟩

/-- `normalize`: trim and lowercase. -/
def normalize (value : String) : String :=
  String.mk ((charsTrim value.data).map Char.toLower)

/-- Substring containment on character lists (`String.prototype.includes`). -/
def charsContain (hay needle : List Char) : Bool :=
  match hay with
  | [] => needle.isEmpty
  | _ :: t => if needle.isPrefixOf hay then true else charsContain t needle

/-- `haystack.includes(needle)` for strings. -/
def strIncludes (hay needle : String) : Bool :=
  charsContain hay.toList needle.toList

/-- `inferCategoryFromLabel` from src/unnamed/part_000 lines 182-210:
ordered keyword rules over the normalized label. -/
def inferCategoryFromLabel (label : String) : String :=
  let n := normalize label
  if strIncludes n "box" then "Moving Box"
  else if strIncludes n "sofa" ∨ strIncludes n "couch" then "Couch / Sofa"
  else if strIncludes n "bed" then "Bed"
  else if strIncludes n "dresser" then "Dresser"
  else if strIncludes n "table" then "Table"
  else if strIncludes n "fridge" ∨ strIncludes n "refrigerator" ∨ strIncludes n "appliance" then
    "Appliance"
  else if strIncludes n "chair" then "Chair"
  else "Miscellaneous"

/-- The kind of contextual edit panel a row can have open. -/
inductive PanelKind where
  | move
  | rename
  deriving DecidableEq

/-- Per-item label settings; the source creates them complete
(`defaultLabelSettings`) and only ever overwrites single fields, so every
stored record carries all six fields. -/
structure LabelSettings where
  title : String
  room : String
  weight : String
  notes : String
  titleSize : ℚ
  bodySize : ℚ
  deriving DecidableEq

/-- An inventory item.  `category = ""` stands for an absent/empty category
(the only falsy strings), `includeInEstimate`/`isHighValue` are `none` when
the stored field is not a boolean, and `editMode = none` is the JavaScript
`null`/absent edit mode.  `id` and `qrValue` are the identity fields of the
spec's Identity Issuer: the store code under src/ never reads or writes them
but carries them opaquely through every splice/push, which the model mirrors. -/
structure Item where
  label : String
  category : String
  notes : String
  weight : JSValue
  includeInEstimate : Option Bool
  isHighValue : Option Bool
  labelSettings : Option LabelSettings
  editMode : Option PanelKind
  id : Option String
  qrValue : Option String
  deriving DecidableEq

/-- A room: name, ordered items, derived rounded weight, transient rename
panel state. -/
structure Room where
  name : String
  items : List Item
  roomWeight : ℚ
  editMode : Option PanelKind
  deriving DecidableEq

/-- The inventory tree with its derived total weight. -/
structure Inventory where
  rooms : List Room
  totalWeight : ℚ
  deriving DecidableEq

/-- `ensureItemDefaults` from src/unnamed/part_000 lines 220-236. -/
def ensureItemDefaults (item : Item) : Item :=
  let category := if item.category = "" then inferCategoryFromLabel item.label else item.category
  let categoryDefinition := getCategoryDefinition category
  let weight := coerceWeight item.weight categoryDefinition.defaultWeight
  { item with
      category := category
      weight := JSValue.num weight
      includeInEstimate := some (item.includeInEstimate.getD true)
      isHighValue := some (item.isHighValue.getD false) }

/-- Weight a (normalized) item contributes to its room when included. -/
def itemContribution (item : Item) : ℚ :=
  if item.includeInEstimate = some true then
    match item.weight with
    | .num q => q
    | _ => 0
  else 0

/-- Sum of the contributions of a list of items. -/
def includedSum (items : List Item) : ℚ :=
  (items.map itemContribution).sum

/-- The per-room half of `recalculateWeights` (src/unnamed/part_000 lines
258-267): normalize every item, then store the rounded included-weight sum. -/
def recalcRoom (room : Room) : Room :=
  let items := room.items.map ensureItemDefaults
  { room with
      items := items
      roomWeight := ((jsRound (includedSum items) : ℤ) : ℚ) }

/-- `recalculateWeights` from src/unnamed/part_000 lines 256-270. -/
def recalculateWeights (inventory : Inventory) : Inventory :=
  let rooms := inventory.rooms.map recalcRoom
  { rooms := rooms
    totalWeight := ((jsRound ((rooms.map Room.roomWeight).sum) : ℤ) : ℚ) }

/-- The weight bookkeeping the spec promises: every room's `roomWeight` is
the rounded sum of the weights of its included items, and `totalWeight` is
the sum of the room weights. -/
def WeightInvariant (inventory : Inventory) : Prop :=
  (∀ room ∈ inventory.rooms,
    room.roomWeight = ((jsRound (includedSum room.items) : ℤ) : ℚ))
  ∧ inventory.totalWeight = (inventory.rooms.map Room.roomWeight).sum

/-- The page state the handlers close over: the inventory, the open label
panel's positional reference (`activeLabelItem` plus the panel's `hidden`
flag), and the single-slot action-menu registers.  The `openRoomIndexes`
set and the search query are pure rendering caches and are not modelled. -/
structure AppState where
  inventory : Inventory
  activeLabelItem : Option (ℕ × ℕ)
  labelPanelHidden : Bool
  activeMenuItemId : Option (ℕ × ℕ)
  activeRoomMenuIndex : Option ℕ
  deriving DecidableEq

/-- Replace the element at index `n` by `f` applied to it; out-of-range
indices leave the list unchanged (the handlers guard existence first). -/
def listModify (l : List α) (n : ℕ) (f : α → α) : List α :=
  match l, n with
  | [], _ => []
  | a :: t, 0 => f a :: t
  | a :: t, Nat.succ m => a :: listModify t m f

/-- Apply `f` to the item at `(r, i)` of the inventory. -/
def updateItemAt (inventory : Inventory) (r i : ℕ) (f : Item → Item) : Inventory :=
  { inventory with
      rooms := listModify inventory.rooms r
        (fun room => { room with items := listModify room.items i f }) }

/-- Apply `f` to the room at index `r` of the inventory. -/
def updateRoomAt (inventory : Inventory) (r : ℕ) (f : Room → Room) : Inventory :=
  { inventory with rooms := listModify inventory.rooms r f }

/-- `syncInventoryState` (src/unnamed/part_000 lines 272-276): recalculate,
then persist.  Persistence is a side effect on storage and leaves the page
state untouched, so its state effect is the recalculation alone. -/
def syncInventoryState (inventory : Inventory) : Inventory :=
  recalculateWeights inventory

/-- `adjustActiveLabelIndexOnRemoval` from src/unnamed/part_000 lines
350-360: shift the open label panel's item index down when an earlier item
of the same room was removed. -/
def adjustActiveLabelIndexOnRemoval (roomIndex itemIndex : ℕ)
    (active : Option (ℕ × ℕ)) : Option (ℕ × ℕ) :=
  match active with
  | none => none
  | some (ar, ai) =>
    if ar = roomIndex ∧ itemIndex < ai then some (ar, ai - 1) else some (ar, ai)

/-- JavaScript string interpolation of a value (template-literal coercion).
Integer numbers print exactly as in JavaScript; a non-integral rational is
printed in fraction form, a display-only divergence of the model that no
claim observes (label text is only defaulted once and then stored). -/
def jsDisplay : JSValue → String
  | .num q => if q.den = 1 then toString q.num else toString q
  | .str s => s
  | .nanv => "NaN"
  | .boolv b => if b then "true" else "false"
  | .nullv => "null"
  | .undef => "undefined"

/-- `defaultLabelSettings` from src/unnamed/part_000 lines 889-896. -/
def defaultLabelSettings (room : Room) (item : Item) : LabelSettings :=
  { title := item.label
    room := room.name
    weight := jsDisplay item.weight ++ " lbs"
    notes := item.notes
    titleSize := 26
    bodySize := 18 }

/-- `ensureLabelSettings` from src/unnamed/part_000 lines 898-908: install
defaults when absent, then merge stored overrides over refreshed defaults.
Stored records in this model always carry all six fields (the source only
ever creates complete records), so the field-wise spread merge returns the
stored record unchanged. -/
def ensureLabelSettings (room : Room) (item : Item) : LabelSettings :=
  match item.labelSettings with
  | some settings => settings
  | none => defaultLabelSettings room item

/-- The four inventory-item fields editable from the row
(`data-field` change handler, src/unnamed/part_000 lines 828-861). -/
inductive FieldUpdate where
  | category (value : String)
  | weight (value : JSValue)
  | include (checked : Bool)
  | highValue (checked : Bool)
  deriving DecidableEq

/-- The per-field item mutation of the `data-field` change handler: a
category change resets the weight to the new category's default, a weight
change runs through `coerceWeight`, the checkboxes write booleans. -/
def applyFieldUpdate (update : FieldUpdate) (item : Item) : Item :=
  match update with
  | .category value =>
      { item with category := value
                  weight := JSValue.num (getCategoryDefinition value).defaultWeight }
  | .weight value =>
      { item with weight :=
          JSValue.num (coerceWeight value (getCategoryDefinition item.category).defaultWeight) }
  | .include checked => { item with includeInEstimate := some checked }
  | .highValue checked => { item with isHighValue := some checked }

/-- The room-form submit handler (src/unnamed/part_000 lines 782-792):
no-op on a blank name, otherwise append an empty room and sync.  The freshly
pushed room has no `roomWeight`/`editMode` fields yet; the immediate
recalculation writes `roomWeight` before anything reads it, so the model
initializes it to `0`. -/
def applyAddRoom (nameRaw : String) (s : AppState) : AppState :=
  let name := jsTrim nameRaw
  if name = "" then s
  else
    { s with
        inventory := syncInventoryState
          { s.inventory with
              rooms := s.inventory.rooms ++ [{ name := name, items := [], roomWeight := 0, editMode := none }] }
        activeMenuItemId := none
        activeRoomMenuIndex := none }

/-- The add-item submit handler (src/unnamed/part_000 lines 795-826): no-op
on a blank label; an empty category select falls back to "Miscellaneous";
the new item starts at the category's default weight, included, not
high-value, without label settings, edit mode or identity fields.  An
out-of-range room index would throw on the unguarded indexing before any
mutation, leaving the state unchanged, which the guard models. -/
def applyAddItem (roomIndex : ℕ) (labelRaw categoryRaw notes : String) (s : AppState) : AppState :=
  let label := jsTrim labelRaw
  let category := if categoryRaw = "" then "Miscellaneous" else categoryRaw
  if label = "" then s
  else if s.inventory.rooms.length ≤ roomIndex then s
  else
    let newItem : Item :=
      { label := label
        category := category
        notes := notes
        weight := JSValue.num (getCategoryDefinition category).defaultWeight
        includeInEstimate := some true
        isHighValue := some false
        labelSettings := none
        editMode := none
        id := none
        qrValue := none }
    { s with
        inventory := syncInventoryState
          (updateRoomAt s.inventory roomIndex (fun room => { room with items := room.items ++ [newItem] }))
        activeMenuItemId := none
        activeRoomMenuIndex := none }

/-- The `data-field` change handler: guarded per-field item update plus sync. -/
def applyUpdateItemField (roomIndex itemIndex : ℕ) (update : FieldUpdate) (s : AppState) : AppState :=
  match s.inventory.rooms[roomIndex]? with
  | none => s
  | some room =>
    match room.items[itemIndex]? with
    | none => s
    | some _ =>
      { s with
          inventory := syncInventoryState
            (updateItemAt s.inventory roomIndex itemIndex (applyFieldUpdate update))
          activeMenuItemId := none
          activeRoomMenuIndex := none }

/-- `setItemEditMode` reached through the `open-panel` action
(src/unnamed/part_000 lines 1286-1299): close every action menu, then set
the target item's edit mode.  Only the target row is touched. -/
def applyOpenItemPanel (roomIndex itemIndex : ℕ) (panel : PanelKind) (s : AppState) : AppState :=
  match s.inventory.rooms[roomIndex]? with
  | none => s
  | some room =>
    match room.items[itemIndex]? with
    | none => s
    | some _ =>
      { s with
          inventory := updateItemAt s.inventory roomIndex itemIndex
            (fun item => { item with editMode := some panel })
          activeMenuItemId := none
          activeRoomMenuIndex := none }

/-- The `cancel-panel` action: clear the target item's edit mode. -/
def applyCancelItemPanel (roomIndex itemIndex : ℕ) (s : AppState) : AppState :=
  match s.inventory.rooms[roomIndex]? with
  | none => s
  | some room =>
    match room.items[itemIndex]? with
    | none => s
    | some _ =>
      { s with
          inventory := updateItemAt s.inventory roomIndex itemIndex
            (fun item => { item with editMode := none }) }

/-- The `open-room-panel` action: close menus, set the room's edit mode. -/
def applyOpenRoomPanel (roomIndex : ℕ) (s : AppState) : AppState :=
  match s.inventory.rooms[roomIndex]? with
  | none => s
  | some _ =>
    { s with
        inventory := updateRoomAt s.inventory roomIndex
          (fun room => { room with editMode := some PanelKind.rename })
        activeMenuItemId := none
        activeRoomMenuIndex := none }

/-- The `cancel-room-panel` action: clear the room's edit mode. -/
def applyCancelRoomPanel (roomIndex : ℕ) (s : AppState) : AppState :=
  match s.inventory.rooms[roomIndex]? with
  | none => s
  | some _ =>
    { s with
        inventory := updateRoomAt s.inventory roomIndex
          (fun room => { room with editMode := none }) }

/-- The label-settings rewrite a room rename applies to each contained item
(src/unnamed/part_000 lines 1213-1220): refresh `room` when it is falsy
(empty) or still equals the old room name. -/
def renamePropagate (oldName newName : String) (item : Item) : Item :=
  match item.labelSettings with
  | none => item
  | some settings =>
    if settings.room = "" ∨ settings.room = oldName then
      { item with labelSettings := some { settings with room := newName } }
    else item

/-- The `confirm-room-rename` action (src/unnamed/part_000 lines 1201-1225):
no-op on a blank new name (nothing is touched, not even the panel);
otherwise rename the room, close its panel, propagate into contained label
settings, and sync. -/
def applyConfirmRoomRename (roomIndex : ℕ) (newNameRaw : String) (s : AppState) : AppState :=
  match s.inventory.rooms[roomIndex]? with
  | none => s
  | some _ =>
    let newName := jsTrim newNameRaw
    if newName = "" then s
    else
      { s with
          inventory := syncInventoryState
            (updateRoomAt s.inventory roomIndex (fun room =>
              { room with
                  name := newName
                  editMode := none
                  items := room.items.map (renamePropagate room.name newName) }))
          activeMenuItemId := none
          activeRoomMenuIndex := none }

/-- The `delete-room` action (src/unnamed/part_000 lines 1226-1260):
confirmation-gated; remove the room, invalidate or shift the active label
reference, close all menus, sync. -/
def applyDeleteRoom (confirmed : Bool) (roomIndex : ℕ) (s : AppState) : AppState :=
  match s.inventory.rooms[roomIndex]? with
  | none => s
  | some _ =>
    if ¬ confirmed then s
    else
      let inv1 := { s.inventory with rooms := s.inventory.rooms.eraseIdx roomIndex }
      match s.activeLabelItem with
      | some (ar, ai) =>
        if ar = roomIndex then
          { inventory := syncInventoryState inv1
            activeLabelItem := none
            labelPanelHidden := true
            activeMenuItemId := none
            activeRoomMenuIndex := none }
        else
          { inventory := syncInventoryState inv1
            activeLabelItem := if roomIndex < ar then some (ar - 1, ai) else some (ar, ai)
            labelPanelHidden := s.labelPanelHidden
            activeMenuItemId := none
            activeRoomMenuIndex := none }
      | none =>
          { inventory := syncInventoryState inv1
            activeLabelItem := none
            labelPanelHidden := s.labelPanelHidden
            activeMenuItemId := none
            activeRoomMenuIndex := none }

/-- The label-settings rewrite applied to a moved item (src/unnamed/part_000
lines 1331-1333): unlike the room-rename propagation, it fires only on an
exact match with the old room name. -/
def renamePropagateMove (oldName destName : String) (item : Item) : Item :=
  match item.labelSettings with
  | none => item
  | some settings =>
    if settings.room = oldName then
      { item with labelSettings := some { settings with room := destName } }
    else item

/-- The `confirm-move` action (src/unnamed/part_000 lines 1305-1344).  When
source and destination coincide the handler only closes the item's panel.
Otherwise: splice the item out of the source room, clear its edit mode,
append it to the destination, rewrite its label-settings room name when it
still equalled the source room's name, and follow or shift the active label
reference.  A destination index outside the room list cannot be produced by
the room select (it lists exactly the current rooms) and is modelled as the
identity. -/
def applyConfirmMove (roomIndex itemIndex destinationIndex : ℕ) (s : AppState) : AppState :=
  match s.inventory.rooms[roomIndex]? with
  | none => s
  | some room =>
    match room.items[itemIndex]? with
    | none => s
    | some item =>
      if destinationIndex = roomIndex then
        { s with
            inventory := updateItemAt s.inventory roomIndex itemIndex
              (fun it => { it with editMode := none }) }
      else
        match s.inventory.rooms[destinationIndex]? with
        | none => s
        | some destinationRoom =>
          let movedItem := renamePropagateMove room.name destinationRoom.name
            { item with editMode := none }
          let inv1 := updateRoomAt s.inventory roomIndex
            (fun rm => { rm with items := rm.items.eraseIdx itemIndex })
          let inv2 := updateRoomAt inv1 destinationIndex
            (fun rm => { rm with items := rm.items ++ [movedItem] })
          let wasActive := s.activeLabelItem = some (roomIndex, itemIndex)
          { s with
              inventory := syncInventoryState inv2
              activeLabelItem :=
                if wasActive then some (destinationIndex, destinationRoom.items.length)
                else adjustActiveLabelIndexOnRemoval roomIndex itemIndex s.activeLabelItem
              activeMenuItemId := none
              activeRoomMenuIndex := none }

/-- The `confirm-rename` action for items (src/unnamed/part_000 lines
1345-1364): no-op on a blank label; otherwise rename, close the panel, and
refresh the label-settings title when it was falsy or still the old label. -/
def applyConfirmRename (roomIndex itemIndex : ℕ) (newLabelRaw : String) (s : AppState) : AppState :=
  match s.inventory.rooms[roomIndex]? with
  | none => s
  | some room =>
    match room.items[itemIndex]? with
    | none => s
    | some _ =>
      let newLabel := jsTrim newLabelRaw
      if newLabel = "" then s
      else
        { s with
            inventory := syncInventoryState
              (updateItemAt s.inventory roomIndex itemIndex (fun item =>
                let withTitle :=
                  match item.labelSettings with
                  | none => (none : Option LabelSettings)
                  | some settings =>
                    if settings.title = "" ∨ settings.title = item.label then
                      some { settings with title := newLabel }
                    else some settings
                { item with label := newLabel, editMode := none, labelSettings := withTitle }))
            activeMenuItemId := none
            activeRoomMenuIndex := none }

/-- The `delete-item` action (src/unnamed/part_000 lines 1366-1390):
confirmation-gated; splice the item out, and either invalidate the label
panel (when it showed the deleted item) or shift its index. -/
def applyDeleteItem (confirmed : Bool) (roomIndex itemIndex : ℕ) (s : AppState) : AppState :=
  match s.inventory.rooms[roomIndex]? with
  | none => s
  | some room =>
    match room.items[itemIndex]? with
    | none => s
    | some _ =>
      if ¬ confirmed then s
      else
        let inv1 := updateRoomAt s.inventory roomIndex
          (fun rm => { rm with items := rm.items.eraseIdx itemIndex })
        if s.activeLabelItem = some (roomIndex, itemIndex) then
          { s with
              inventory := syncInventoryState inv1
              activeLabelItem := none
              labelPanelHidden := true
              activeMenuItemId := none
              activeRoomMenuIndex := none }
        else
          { s with
              inventory := syncInventoryState inv1
              activeLabelItem := adjustActiveLabelIndexOnRemoval roomIndex itemIndex s.activeLabelItem
              activeMenuItemId := none
              activeRoomMenuIndex := none }

/-- `openLabelPanel` (src/unnamed/part_000 lines 964-980): record the
positional reference, materialize the label settings on the item, persist
(no recalculation), and show the panel. -/
def applyOpenLabelPanel (roomIndex itemIndex : ℕ) (s : AppState) : AppState :=
  match s.inventory.rooms[roomIndex]? with
  | none => s
  | some room =>
    match room.items[itemIndex]? with
    | none => s
    | some _ =>
      { s with
          inventory := updateItemAt s.inventory roomIndex itemIndex
            (fun item => { item with labelSettings := some (ensureLabelSettings room item) })
          activeLabelItem := some (roomIndex, itemIndex)
          labelPanelHidden := false }

/-- The close-label button: hide the panel and clear the reference. -/
def applyCloseLabelPanel (s : AppState) : AppState :=
  { s with activeLabelItem := none, labelPanelHidden := true }

/-- An editable label-settings field with its new value. -/
inductive LabelFieldUpdate where
  | title (value : String)
  | room (value : String)
  | weight (value : String)
  | notes (value : String)
  | titleSize (value : ℚ)
  | bodySize (value : ℚ)
  deriving DecidableEq

/-- Write one label-settings field. -/
def setLabelField (update : LabelFieldUpdate) (settings : LabelSettings) : LabelSettings :=
  match update with
  | .title value => { settings with title := value }
  | .room value => { settings with room := value }
  | .weight value => { settings with weight := value }
  | .notes value => { settings with notes := value }
  | .titleSize value => { settings with titleSize := value }
  | .bodySize value => { settings with bodySize := value }

/-- `updateLabelSetting` (src/unnamed/part_000 lines 982-991): when the
panel has a valid context, ensure the settings record and overwrite one
field, then persist (again without recalculation). -/
def applyUpdateLabelSetting (update : LabelFieldUpdate) (s : AppState) : AppState :=
  match s.activeLabelItem with
  | none => s
  | some (roomIndex, itemIndex) =>
    match s.inventory.rooms[roomIndex]? with
    | none => s
    | some room =>
      match room.items[itemIndex]? with
      | none => s
      | some _ =>
        { s with
            inventory := updateItemAt s.inventory roomIndex itemIndex
              (fun item =>
                { item with labelSettings := some (setLabelField update (ensureLabelSettings room item)) }) }

/-- The `toggle-item-menu` action: close every menu, then reopen the clicked
one unless it was the one already open. -/
def applyToggleItemMenu (roomIndex itemIndex : ℕ) (s : AppState) : AppState :=
  match s.inventory.rooms[roomIndex]? with
  | none => s
  | some room =>
    match room.items[itemIndex]? with
    | none => s
    | some _ =>
      let shouldOpen := s.activeMenuItemId ≠ some (roomIndex, itemIndex)
      { s with
          activeMenuItemId := if shouldOpen then some (roomIndex, itemIndex) else none
          activeRoomMenuIndex := none }

/-- The `toggle-room-menu` action, mirroring the item-menu toggle. -/
def applyToggleRoomMenu (roomIndex : ℕ) (s : AppState) : AppState :=
  match s.inventory.rooms[roomIndex]? with
  | none => s
  | some _ =>
    let shouldOpen := s.activeRoomMenuIndex ≠ some roomIndex
    { s with
        activeMenuItemId := none
        activeRoomMenuIndex := if shouldOpen then some roomIndex else none }

/-- The document-level click-outside handler: close all menus. -/
def applyOutsideClick (s : AppState) : AppState :=
  { s with activeMenuItemId := none, activeRoomMenuIndex := none }

/-- One public operation of the engine, with any caller-side inputs
(confirmation results included). -/
inductive Op where
  | addRoom (nameRaw : String)
  | addItem (roomIndex : ℕ) (labelRaw categoryRaw notes : String)
  | updateItemField (roomIndex itemIndex : ℕ) (update : FieldUpdate)
  | openItemPanel (roomIndex itemIndex : ℕ) (panel : PanelKind)
  | cancelItemPanel (roomIndex itemIndex : ℕ)
  | openRoomPanel (roomIndex : ℕ)
  | cancelRoomPanel (roomIndex : ℕ)
  | confirmRoomRename (roomIndex : ℕ) (newNameRaw : String)
  | deleteRoom (confirmed : Bool) (roomIndex : ℕ)
  | confirmMove (roomIndex itemIndex destinationIndex : ℕ)
  | confirmRename (roomIndex itemIndex : ℕ) (newLabelRaw : String)
  | deleteItem (confirmed : Bool) (roomIndex itemIndex : ℕ)
  | openLabelPanel (roomIndex itemIndex : ℕ)
  | closeLabelPanel
  | updateLabelSetting (update : LabelFieldUpdate)
  | toggleItemMenu (roomIndex itemIndex : ℕ)
  | toggleRoomMenu (roomIndex : ℕ)
  | outsideClick

/-- Dispatch a public operation. -/
def applyOp : Op → AppState → AppState
  | .addRoom nameRaw => applyAddRoom nameRaw
  | .addItem r label category notes => applyAddItem r label category notes
  | .updateItemField r i update => applyUpdateItemField r i update
  | .openItemPanel r i panel => applyOpenItemPanel r i panel
  | .cancelItemPanel r i => applyCancelItemPanel r i
  | .openRoomPanel r => applyOpenRoomPanel r
  | .cancelRoomPanel r => applyCancelRoomPanel r
  | .confirmRoomRename r newName => applyConfirmRoomRename r newName
  | .deleteRoom confirmed r => applyDeleteRoom confirmed r
  | .confirmMove r i d => applyConfirmMove r i d
  | .confirmRename r i newLabel => applyConfirmRename r i newLabel
  | .deleteItem confirmed r i => applyDeleteItem confirmed r i
  | .openLabelPanel r i => applyOpenLabelPanel r i
  | .closeLabelPanel => applyCloseLabelPanel
  | .updateLabelSetting update => applyUpdateLabelSetting update
  | .toggleItemMenu r i => applyToggleItemMenu r i
  | .toggleRoomMenu r => applyToggleRoomMenu r
  | .outsideClick => applyOutsideClick

/-- The state the page starts in after a successful load: the restored
inventory is synced immediately (src/unnamed/part_000 line 1401), the label
panel is hidden and no menu is open. -/
def initialAppState (loaded : Inventory) : AppState :=
  { inventory := syncInventoryState loaded
    activeLabelItem := none
    labelPanelHidden := true
    activeMenuItemId := none
    activeRoomMenuIndex := none }

/-- The states reachable by the public operations from any startup state. -/
inductive Reachable : AppState → Prop where
  | init (loaded : Inventory) : Reachable (initialAppState loaded)
  | step (s : AppState) (op : Op) : Reachable s → Reachable (applyOp op s)

/-- The weight-resolution contract of the spec (section 4.1): the source's
`coerceWeight` with the chosen category's default weight as the fallback,
exactly as every call site supplies it. -/
def resolveWeight (rawWeight : JSValue) (category : Category) : ℚ :=
  coerceWeight rawWeight category.defaultWeight

/-- Test fixture: a normalized 40-pound box item. -/
def plainItem (label : String) : Item :=
  { label := label
    category := "Moving Box"
    notes := ""
    weight := JSValue.num 40
    includeInEstimate := some true
    isHighValue := some false
    labelSettings := none
    editMode := none
    id := none
    qrValue := none }

/-- Test fixture: `plainItem` with the identity field set. -/
def taggedItem (label idv : String) : Item :=
  { plainItem label with id := some idv }

/-- Test fixture: a room whose stored weight is already recalculated. -/
def fixedRoom (name : String) (items : List Item) : Room :=
  { name := name
    items := items
    roomWeight := ((jsRound (includedSum items) : ℤ) : ℚ)
    editMode := none }

/-- Test fixture: an inventory whose stored weights are already
recalculated. -/
def fixedInventory (rooms : List Room) : Inventory :=
  { rooms := rooms
    totalWeight := ((jsRound ((rooms.map Room.roomWeight).sum) : ℤ) : ℚ) }

/-- Test fixture: a complete label-settings record showing a given title
and room. -/
def settingsIn (titleText roomName : String) : LabelSettings :=
  { title := titleText
    room := roomName
    weight := "40 lbs"
    notes := ""
    titleSize := 26
    bodySize := 18 }

/-- Test fixture: a page state with no panel, menu or label context open. -/
def idleState (inventory : Inventory) : AppState :=
  { inventory := inventory
    activeLabelItem := none
    labelPanelHidden := true
    activeMenuItemId := none
    activeRoomMenuIndex := none }

/-!
Persistence.  `saveInventory` (src/unnamed/part_000 lines 130-135) runs
`JSON.stringify` with a replacer that drops every field named `editMode`, at
any depth.  The serialized shapes below therefore simply have no edit-mode
fields; deserializing restores each row with edit mode `none` (an absent
field is `undefined`, which `ensureItemDefaults` turns into `null` for items
and which every room-panel check treats as closed).
-/

/-- A persisted item: every `Item` field except `editMode`. -/
structure SItem where
  label : String
  category : String
  notes : String
  weight : JSValue
  includeInEstimate : Option Bool
  isHighValue : Option Bool
  labelSettings : Option LabelSettings
  id : Option String
  qrValue : Option String
  deriving DecidableEq

/-- A persisted room: every `Room` field except `editMode`. -/
structure SRoom where
  name : String
  items : List SItem
  roomWeight : ℚ
  deriving DecidableEq

/-- The persisted inventory record. -/
structure SInventory where
  rooms : List SRoom
  totalWeight : ℚ
  deriving DecidableEq

/-- Serialize one item (the `editMode` key is dropped by the replacer). -/
def serializeItem (item : Item) : SItem :=
  { label := item.label
    category := item.category
    notes := item.notes
    weight := item.weight
    includeInEstimate := item.includeInEstimate
    isHighValue := item.isHighValue
    labelSettings := item.labelSettings
    id := item.id
    qrValue := item.qrValue }

/-- Serialize one room. -/
def serializeRoom (room : Room) : SRoom :=
  { name := room.name
    items := room.items.map serializeItem
    roomWeight := room.roomWeight }

/-- `saveInventory`'s serialization of the whole tree. -/
def serializeInventory (inventory : Inventory) : SInventory :=
  { rooms := inventory.rooms.map serializeRoom
    totalWeight := inventory.totalWeight }

/-- Restore one item from its persisted form: the absent edit-mode field
comes back as `none`. -/
def deserializeItem (item : SItem) : Item :=
  { label := item.label
    category := item.category
    notes := item.notes
    weight := item.weight
    includeInEstimate := item.includeInEstimate
    isHighValue := item.isHighValue
    labelSettings := item.labelSettings
    editMode := none
    id := item.id
    qrValue := item.qrValue }

/-- Restore one room from its persisted form. -/
def deserializeRoom (room : SRoom) : Room :=
  { name := room.name
    items := room.items.map deserializeItem
    roomWeight := room.roomWeight
    editMode := none }

/-- Restore the inventory tree from its persisted form. -/
def deserializeInventory (inventory : SInventory) : Inventory :=
  { rooms := inventory.rooms.map deserializeRoom
    totalWeight := inventory.totalWeight }

/-- Clear the transient edit mode of one item. -/
def stripItemEditMode (item : Item) : Item :=
  { item with editMode := none }

/-- Clear the transient edit modes of a room and all its items. -/
def stripRoomEditModes (room : Room) : Room :=
  { room with editMode := none, items := room.items.map stripItemEditMode }

/-- Clear every transient edit mode of the tree. -/
def stripEditModes (inventory : Inventory) : Inventory :=
  { inventory with rooms := inventory.rooms.map stripRoomEditModes }

/-!
The raw persistence layer (`loadInventory`, src/unnamed/part_000 lines
117-128).  The stored string is fed to `JSON.parse`; only a parse exception
is caught (and replaced by the empty initial record, with a warning) — a
string that parses to a value of the wrong shape is returned unchanged.  The
JSON model below implements the standard grammar (strings support the
single-character escapes; `\u` sequences are out of scope and read as a
parse failure, which only enlarges the set of records treated as
malformed).
-/

/-- A parsed JSON value. -/
inductive JSON where
  | nullv
  | boolv (b : Bool)
  | num (q : ℚ)
  | str (s : String)
  | arr (elements : List JSON)
  | obj (members : List (String × JSON))

/-- Whether a JSON value is the null literal. -/
def JSON.isNull : JSON → Bool
  | JSON.nullv => true
  | _ => false

/-- Skip JSON whitespace. -/
def skipWs (cs : List Char) : List Char :=
  cs.dropWhile (fun c => c = ' ' ∨ c = '\t' ∨ c = '\n' ∨ c = '\r')

/-- The opening brace character, written by code so the source stays free of
literal braces. -/
def lbraceChar : Char := Char.ofNat 123

/-- The closing brace character. -/
def rbraceChar : Char := Char.ofNat 125

/-- Read the characters of a JSON string after the opening quote, handling
the single-character escapes. -/
def readStrChars (cs : List Char) : Option (List Char × List Char) :=
  match cs with
  | [] => none
  | c :: t =>
    if c = '"' then some ([], t)
    else if c = '\\' then
      match t with
      | [] => none
      | e :: u =>
        let esc : Option Char :=
          if e = '"' then some '"'
          else if e = '\\' then some '\\'
          else if e = '/' then some '/'
          else if e = 'n' then some '\n'
          else if e = 't' then some '\t'
          else if e = 'r' then some '\r'
          else if e = 'b' then some (Char.ofNat 8)
          else if e = 'f' then some (Char.ofNat 12)
          else none
        match esc with
        | none => none
        | some d =>
          match readStrChars u with
          | none => none
          | some (ds, rest) => some (d :: ds, rest)
    else
      match readStrChars t with
      | none => none
      | some (ds, rest) => some (c :: ds, rest)

/-- Read a JSON number (`-?digits(.digits)?([eE][+-]?digits)?`), returning
its exact value and the remaining input. -/
def readJsonNum (cs : List Char) : Option (ℚ × List Char) :=
  let signAndRest : ℚ × List Char :=
    match cs with
    | '-' :: t => (-1, t)
    | _ => (1, cs)
  let ip := (takeDigits signAndRest.2).1
  let cs2 := (takeDigits signAndRest.2).2
  if ip.isEmpty then none
  else
    let fracAndRest : List Char × List Char :=
      match cs2 with
      | '.' :: t => takeDigits t
      | _ => ([], cs2)
    let fp := fracAndRest.1
    let cs3 := fracAndRest.2
    let mantissa : ℚ := (digitsToNat ip : ℚ) + (digitsToNat fp : ℚ) / ((10 : ℚ) ^ fp.length)
    match cs3 with
    | c :: t =>
      if c = 'e' ∨ c = 'E' then
        let esignAndRest : ℤ × List Char :=
          match t with
          | '-' :: u => (-1, u)
          | '+' :: u => (1, u)
          | _ => (1, t)
        let ed := (takeDigits esignAndRest.2).1
        let rest := (takeDigits esignAndRest.2).2
        if ed.isEmpty then none
        else some (signAndRest.1 * mantissa * (10 : ℚ) ^ (esignAndRest.1 * (digitsToNat ed : ℤ)), rest)
      else some (signAndRest.1 * mantissa, cs3)
    | [] => some (signAndRest.1 * mantissa, [])

mutual

/-- Fuel-indexed recursive-descent reading of one JSON value. -/
def parseVal : ℕ → List Char → Option (JSON × List Char)
  | 0, _ => none
  | Nat.succ fuel, cs =>
    match skipWs cs with
    | [] => none
    | c :: t =>
      if c = 'n' then
        if ['u', 'l', 'l'].isPrefixOf t then some (JSON.nullv, t.drop 3) else none
      else if c = 't' then
        if ['r', 'u', 'e'].isPrefixOf t then some (JSON.boolv true, t.drop 3) else none
      else if c = 'f' then
        if ['a', 'l', 's', 'e'].isPrefixOf t then some (JSON.boolv false, t.drop 4) else none
      else if c = '"' then
        match readStrChars t with
        | none => none
        | some (ds, rest) => some (JSON.str (String.mk ds), rest)
      else if c = '[' then
        match skipWs t with
        | ']' :: u => some (JSON.arr [], u)
        | _ =>
          match parseElems fuel t with
          | none => none
          | some (elements, rest) => some (JSON.arr elements, rest)
      else if c = lbraceChar then
        match skipWs t with
        | d :: u =>
          if d = rbraceChar then some (JSON.obj [], u)
          else
            match parseMembers fuel t with
            | none => none
            | some (members, rest) => some (JSON.obj members, rest)
        | [] => none
      else
        match readJsonNum (c :: t) with
        | none => none
        | some (q, rest) => some (JSON.num q, rest)

/-- Read a comma-separated list of values up to the closing bracket. -/
def parseElems : ℕ → List Char → Option (List JSON × List Char)
  | 0, _ => none
  | Nat.succ fuel, cs =>
    match parseVal fuel cs with
    | none => none
    | some (v, rest) =>
      match skipWs rest with
      | ',' :: u =>
        match parseElems fuel u with
        | none => none
        | some (vs, rest2) => some (v :: vs, rest2)
      | ']' :: u => some ([v], u)
      | _ => none

/-- Read a comma-separated list of string-keyed members up to the closing
brace. -/
def parseMembers : ℕ → List Char → Option (List (String × JSON) × List Char)
  | 0, _ => none
  | Nat.succ fuel, cs =>
    match skipWs cs with
    | '"' :: t =>
      match readStrChars t with
      | none => none
      | some (ds, rest) =>
        match skipWs rest with
        | ':' :: u =>
          match parseVal fuel u with
          | none => none
          | some (v, rest2) =>
            match skipWs rest2 with
            | ',' :: w =>
              match parseMembers fuel w with
              | none => none
              | some (members, rest3) => some ((String.mk ds, v) :: members, rest3)
            | d :: w =>
              if d = rbraceChar then some ([(String.mk ds, v)], w) else none
            | [] => none
        | _ => none
    | _ => none

end

/-- `JSON.parse`: read one value, demand only whitespace afterwards. -/
def parseJSON (s : String) : Option JSON :=
  match parseVal (s.length + 1) s.toList with
  | none => none
  | some (v, rest) => if (skipWs rest).isEmpty then some v else none

/-- The record `loadInventory` falls back to: the object with an empty
`rooms` array. -/
def initialInventoryJSON : JSON :=
  JSON.obj [("rooms", JSON.arr [])]

/-- `loadInventory` (src/unnamed/part_000 lines 117-128) together with its
warning flag: a missing record yields the initial record silently; a record
that `JSON.parse` rejects is caught, warned about and replaced; any record
that parses is returned as-is, whatever its shape. -/
def loadInventoryRaw (stored : Option String) : JSON × Bool :=
  match stored with
  | none => (initialInventoryJSON, false)
  | some s =>
    match parseJSON s with
    | none => (initialInventoryJSON, true)
    | some v => (v, false)

/-- The value `loadInventory` hands to the rest of the page. -/
def loadInventoryJSON (stored : Option String) : JSON :=
  (loadInventoryRaw stored).1

/-- Whether `recalculateWeights` (and the subsequent render) runs without
throwing on a loaded value: `inventory.rooms.forEach` needs `rooms` to be an
array on an object, `room.items.forEach` needs each room to be an object
carrying an array, and `ensureItemDefaults` reads fields of each item, which
throws exactly on `null` (property writes on other primitives are silently
ignored in sloppy mode). -/
def recalcJSOk (j : JSON) : Bool :=
  match j with
  | JSON.obj members =>
    match members.lookup "rooms" with
    | some (JSON.arr rooms) =>
      rooms.all (fun room =>
        match room with
        | JSON.obj roomMembers =>
          match roomMembers.lookup "items" with
          | some (JSON.arr items) => items.all (fun item => ¬ item.isNull)
          | _ => false
        | _ => false)
    | _ => false
  | _ => false

/-!
Identity issue and resolution.  Modelled from the spec: the Identity
Issuer / Resolver component (spec sections 2, 4.3) does not appear in the
JavaScript under src/ — only the inventory store that would carry the `id`
and `qrValue` fields opaquely does — so `issueId`'s integration into item
creation and `resolveByCode` are modelled from the spec's words: the id is
assigned once at creation and doubles as the QR payload, and resolution is
a linear first-match scan over `item.id == code OR item.qrValue == code`.
-/

/-- Whether a scanned code matches an item (`item.id == code OR
item.qrValue == code`; an absent field never equals a string). -/
def itemMatchesCode (code : String) (item : Item) : Bool :=
  item.id = some code ∨ item.qrValue = some code

/-- Modelled from the spec: the inner loop of `resolveByCode` over one
room's items. -/
def findInItems (room : Room) (code : String) : List Item → Option (Room × Item)
  | [] => none
  | item :: rest =>
    if itemMatchesCode code item then some (room, item) else findInItems room code rest

/-- Modelled from the spec: `resolveByCode` scans rooms in order and items
in room order; the first match wins; no match is `none`, not an error. -/
def resolveByCode (code : String) : List Room → Option (Room × Item)
  | [] => none
  | room :: rest =>
    match findInItems room code room.items with
    | some found => some found
    | none => resolveByCode code rest

/-- The scan order `resolveByCode` traverses: every (room, item) pair, rooms
outermost. -/
def scanPairs (rooms : List Room) : List (Room × Item) :=
  rooms.flatMap (fun room => room.items.map (fun item => (room, item)))

/-- Modelled from the spec: item creation with the Identity Issuer attached —
the add-item handler of the store, except that the new item is born with the
freshly issued id (which is also its QR payload, so no distinct `qrValue` is
set). -/
def addItemIssued (freshId : String) (roomIndex : ℕ) (labelRaw categoryRaw notes : String)
    (s : AppState) : AppState :=
  let label := jsTrim labelRaw
  let category := if categoryRaw = "" then "Miscellaneous" else categoryRaw
  if label = "" then s
  else if s.inventory.rooms.length ≤ roomIndex then s
  else
    let newItem : Item :=
      { label := label
        category := category
        notes := notes
        weight := JSValue.num (getCategoryDefinition category).defaultWeight
        includeInEstimate := some true
        isHighValue := some false
        labelSettings := none
        editMode := none
        id := some freshId
        qrValue := none }
    { s with
        inventory := syncInventoryState
          (updateRoomAt s.inventory roomIndex (fun room => { room with items := room.items ++ [newItem] }))
        activeMenuItemId := none
        activeRoomMenuIndex := none }

end PCS

namespace PCS

/-!  Auxiliary lemmas. -/

/-- `jsRound` is the floor of `q + 1/2`, i.e. JavaScript's round-half-up. -/
theorem jsRound_eq_floor (q : ℚ) : jsRound q = ⌊q + 1 / 2⌋ := by
  have key : q * ((q.den : ℤ) : ℚ) = ((q.num : ℤ) : ℚ) := by
    exact_mod_cast Rat.mul_den_eq_num q
  have hden : (0 : ℚ) < (q.den : ℚ) := by
    exact_mod_cast q.pos
  have hq : q + 1 / 2 = ((2 * q.num + (q.den : ℤ) : ℤ) : ℚ) / (((2 * q.den : ℕ) : ℕ) : ℚ) := by
    push_cast
    rw [eq_div_iff (by positivity)]
    ring_nf
    push_cast at key
    nlinarith [key]
  rw [hq, Rat.floor_intCast_div_natCast]
  unfold jsRound
  rw [Int.fdiv_eq_ediv _ (by positivity)]
  push_cast
  rfl

/-- `jsRound` fixes the integers. -/
theorem jsRound_intCast (n : ℤ) : jsRound ((n : ℤ) : ℚ) = n := by
  rw [jsRound_eq_floor, add_comm, Int.floor_add_int]
  norm_num

theorem length_listModify (l : List α) (n : ℕ) (f : α → α) :
    (listModify l n f).length = l.length := by
  induction l generalizing n with
  | nil => rfl
  | cons a t ih =>
    cases n with
    | zero => rfl
    | succ m => simpa [listModify] using ih m

theorem map_listModify_of_comp (l : List α) (n : ℕ) (f : α → α) (g : α → β)
    (h : ∀ a, g (f a) = g a) : (listModify l n f).map g = l.map g := by
  induction l generalizing n with
  | nil => rfl
  | cons a t ih =>
    cases n with
    | zero => simp [listModify, h a]
    | succ m => simp [listModify, ih m]

theorem forall_mem_listModify {P : α → Prop} (l : List α) (n : ℕ) (f : α → α)
    (h1 : ∀ a ∈ l, P a) (h2 : ∀ a ∈ l, P a → P (f a)) :
    ∀ a ∈ listModify l n f, P a := by
  induction l generalizing n with
  | nil => intro a ha; cases ha
  | cons b t ih =>
    cases n with
    | zero =>
      intro a ha
      rcases List.mem_cons.1 ha with rfl | ha
      · exact h2 b (List.mem_cons_self b t) (h1 b (List.mem_cons_self b t))
      · exact h1 a (List.mem_cons_of_mem b ha)
    | succ m =>
      intro a ha
      rcases List.mem_cons.1 ha with rfl | ha
      · exact h1 a (List.mem_cons_self a t)
      · exact ih m (fun x hx => h1 x (List.mem_cons_of_mem b hx))
          (fun x hx => h2 x (List.mem_cons_of_mem b hx)) a ha

theorem getElem?_listModify (l : List α) (n : ℕ) (f : α → α) (m : ℕ) :
    (listModify l n f)[m]? = if m = n then (l[m]?).map f else l[m]? := by
  induction l generalizing n m with
  | nil => simp [listModify]
  | cons a t ih =>
    cases n with
    | zero =>
      cases m with
      | zero => simp [listModify]
      | succ k => simp [listModify]
    | succ nm =>
      cases m with
      | zero => simp [listModify]
      | succ k => simpa [listModify] using ih nm k

theorem getElem?_eraseIdx_lt (l : List α) (n m : ℕ) (h : m < n) :
    (l.eraseIdx n)[m]? = l[m]? := by
  induction l generalizing n m with
  | nil => simp
  | cons a t ih =>
    cases n with
    | zero => omega
    | succ nm =>
      cases m with
      | zero => simp [List.eraseIdx]
      | succ k =>
        have : k < nm := by omega
        simpa [List.eraseIdx] using ih nm k this

theorem getElem?_eraseIdx_ge (l : List α) (n m : ℕ) (h : n ≤ m) :
    (l.eraseIdx n)[m]? = l[m + 1]? := by
  induction l generalizing n m with
  | nil => simp
  | cons a t ih =>
    cases n with
    | zero => simp [List.eraseIdx]
    | succ nm =>
      cases m with
      | zero => omega
      | succ k =>
        have : nm ≤ k := by omega
        simpa [List.eraseIdx] using ih nm k this

theorem mem_of_mem_eraseIdx {l : List α} {n : ℕ} {a : α} (h : a ∈ l.eraseIdx n) : a ∈ l := by
  induction l generalizing n with
  | nil => simpa using h
  | cons b t ih =>
    cases n with
    | zero =>
      simp only [List.eraseIdx] at h
      exact List.mem_cons_of_mem b h
    | succ m =>
      simp only [List.eraseIdx] at h
      rcases List.mem_cons.1 h with rfl | h
      · exact List.mem_cons_self a t
      · exact List.mem_cons_of_mem b (ih h)

theorem map_eq_self_of_mem {l : List α} {f : α → α} (h : ∀ a ∈ l, f a = a) : l.map f = l := by
  induction l with
  | nil => rfl
  | cons a t ih =>
    simp only [List.map_cons, h a (List.mem_cons_self a t),
      ih (fun x hx => h x (List.mem_cons_of_mem a hx))]

theorem eq_self_of_map_eq_self {l : List α} {f : α → α} (h : l.map f = l) :
    ∀ a ∈ l, f a = a := by
  induction l with
  | nil => intro a ha; cases ha
  | cons a t ih =>
    simp only [List.map_cons, List.cons.injEq] at h
    intro b hb
    rcases List.mem_cons.1 hb with rfl | hb
    · exact h.1
    · exact ih h.2 b hb

/-- The catalog only contains positive default weights, and the fallback is
positive too. -/
theorem getCategoryDefinition_pos (label : String) :
    0 < (getCategoryDefinition label).defaultWeight := by
  unfold getCategoryDefinition
  split
  · rename_i category hfind
    have hmem := List.mem_of_find?_eq_some hfind
    have : ∀ c ∈ CATEGORY_DEFINITIONS, 0 < c.defaultWeight := by
      intro c hc
      fin_cases hc <;> norm_num
    exact this category hmem
  · norm_num

/-- `coerceWeight` returns a positive number whenever its fallback is
positive. -/
theorem coerceWeight_pos (w : JSValue) (fallback : ℚ) (h : 0 < fallback) :
    0 < coerceWeight w fallback := by
  unfold coerceWeight
  split
  · rename_i q hq
    split
    · assumption
    · exact h
  · exact h

/-- Re-coercing an already coerced weight returns it unchanged. -/
theorem coerceWeight_coerced (w : JSValue) (f1 f2 : ℚ) (h : 0 < f1) :
    coerceWeight (JSValue.num (coerceWeight w f1)) f2 = coerceWeight w f1 := by
  have hpos := coerceWeight_pos w f1 h
  unfold coerceWeight jsToNumber
  simp only []
  rw [if_pos]
  exact hpos

/-- The keyword rules never produce an empty category label. -/
theorem inferCategoryFromLabel_ne_empty (label : String) :
    inferCategoryFromLabel label ≠ "" := by
  simp only [inferCategoryFromLabel]
  split
  · decide
  split
  · decide
  split
  · decide
  split
  · decide
  split
  · decide
  split
  · decide
  split
  · decide
  decide

@[simp]
theorem ensureItemDefaults_label (item : Item) :
    (ensureItemDefaults item).label = item.label := rfl

@[simp]
theorem ensureItemDefaults_category (item : Item) :
    (ensureItemDefaults item).category =
      (if item.category = "" then inferCategoryFromLabel item.label else item.category) := rfl

@[simp]
theorem ensureItemDefaults_notes (item : Item) :
    (ensureItemDefaults item).notes = item.notes := rfl

@[simp]
theorem ensureItemDefaults_weight (item : Item) :
    (ensureItemDefaults item).weight =
      JSValue.num (coerceWeight item.weight
        (getCategoryDefinition
          (if item.category = "" then inferCategoryFromLabel item.label
           else item.category)).defaultWeight) := rfl

@[simp]
theorem ensureItemDefaults_includeInEstimate (item : Item) :
    (ensureItemDefaults item).includeInEstimate = some (item.includeInEstimate.getD true) := rfl

@[simp]
theorem ensureItemDefaults_isHighValue (item : Item) :
    (ensureItemDefaults item).isHighValue = some (item.isHighValue.getD false) := rfl

@[simp]
theorem ensureItemDefaults_labelSettings (item : Item) :
    (ensureItemDefaults item).labelSettings = item.labelSettings := rfl

@[simp]
theorem ensureItemDefaults_editMode (item : Item) :
    (ensureItemDefaults item).editMode = item.editMode := rfl

@[simp]
theorem ensureItemDefaults_id (item : Item) :
    (ensureItemDefaults item).id = item.id := rfl

@[simp]
theorem ensureItemDefaults_qrValue (item : Item) :
    (ensureItemDefaults item).qrValue = item.qrValue := rfl

@[simp]
theorem recalcRoom_name (room : Room) : (recalcRoom room).name = room.name := rfl

@[simp]
theorem recalcRoom_items (room : Room) :
    (recalcRoom room).items = room.items.map ensureItemDefaults := rfl

@[simp]
theorem recalcRoom_roomWeight (room : Room) :
    (recalcRoom room).roomWeight =
      ((jsRound (includedSum (room.items.map ensureItemDefaults)) : ℤ) : ℚ) := rfl

@[simp]
theorem recalcRoom_editMode (room : Room) : (recalcRoom room).editMode = room.editMode := rfl

@[simp]
theorem recalculateWeights_rooms (inventory : Inventory) :
    (recalculateWeights inventory).rooms = inventory.rooms.map recalcRoom := rfl

@[simp]
theorem recalculateWeights_totalWeight (inventory : Inventory) :
    (recalculateWeights inventory).totalWeight =
      ((jsRound (((inventory.rooms.map recalcRoom).map Room.roomWeight).sum) : ℤ) : ℚ) := rfl

/-- An item all of whose defaulted fields are already in place is fixed by
`ensureItemDefaults`. -/
theorem ensureItemDefaults_of_fields {item : Item} (hcat : item.category ≠ "")
    (hw : ∃ q, item.weight = JSValue.num q ∧ 0 < q)
    (hi : ∃ b, item.includeInEstimate = some b)
    (hh : ∃ b, item.isHighValue = some b) :
    ensureItemDefaults item = item := by
  obtain ⟨q, hq, hq0⟩ := hw
  obtain ⟨b, hb⟩ := hi
  obtain ⟨c, hc⟩ := hh
  cases item with
  | mk label category notes weight inc high settings editMode idv qrv =>
    simp only at hq hb hc hcat
    subst hq
    subst hb
    subst hc
    simp only [ensureItemDefaults, Item.mk.injEq]
    rw [if_neg hcat]
    simp [coerceWeight, jsToNumber, if_pos hq0]

/-- `ensureItemDefaults` is idempotent. -/
theorem ensureItemDefaults_idem (item : Item) :
    ensureItemDefaults (ensureItemDefaults item) = ensureItemDefaults item := by
  apply ensureItemDefaults_of_fields
  · rw [ensureItemDefaults_category]
    split
    · exact inferCategoryFromLabel_ne_empty item.label
    · assumption
  · refine ⟨_, ensureItemDefaults_weight item, ?_⟩
    exact coerceWeight_pos _ _ (getCategoryDefinition_pos _)
  · exact ⟨_, ensureItemDefaults_includeInEstimate item⟩
  · exact ⟨_, ensureItemDefaults_isHighValue item⟩

/-- `recalcRoom` is idempotent. -/
theorem recalcRoom_idem (room : Room) : recalcRoom (recalcRoom room) = recalcRoom room := by
  cases room with
  | mk name items roomWeight editMode =>
    have hmap : (items.map ensureItemDefaults).map ensureItemDefaults
        = items.map ensureItemDefaults := by
      rw [List.map_map]
      apply List.map_congr_left
      intro a _
      exact ensureItemDefaults_idem a
    simp only [recalcRoom, Room.mk.injEq, hmap]

/-- `recalculateWeights` is idempotent. -/
theorem recalculateWeights_idem (inventory : Inventory) :
    recalculateWeights (recalculateWeights inventory) = recalculateWeights inventory := by
  cases inventory with
  | mk rooms totalWeight =>
    have hmap : (rooms.map recalcRoom).map recalcRoom = rooms.map recalcRoom := by
      rw [List.map_map]
      apply List.map_congr_left
      intro a _
      exact recalcRoom_idem a
    exact congrArg
      (fun X : List Room =>
        Inventory.mk X ((jsRound ((X.map Room.roomWeight).sum) : ℤ) : ℚ)) hmap

/-- Every list of integer casts sums to an integer cast. -/
theorem sum_map_intCast (l : List ℤ) :
    ((l.map (fun n => ((n : ℤ) : ℚ))).sum) = ((l.sum : ℤ) : ℚ) := by
  induction l with
  | nil => rfl
  | cons a t ih =>
    rw [List.map_cons, List.sum_cons, List.sum_cons, ih]
    push_cast
    ring

/-- Recalculation establishes the weight invariant. -/
theorem weightInvariant_recalc (inventory : Inventory) :
    WeightInvariant (recalculateWeights inventory) := by
  constructor
  · intro room hroom
    unfold recalculateWeights at hroom
    simp only [List.mem_map] at hroom
    obtain ⟨r, _, rfl⟩ := hroom
    rfl
  · have hform : ((recalculateWeights inventory).rooms).map Room.roomWeight =
        (inventory.rooms.map (fun r =>
          jsRound (includedSum (r.items.map ensureItemDefaults)))).map
          (fun n => ((n : ℤ) : ℚ)) := by
      rw [recalculateWeights_rooms, List.map_map, List.map_map]
      apply List.map_congr_left
      intro a _
      rfl
    rw [show (recalculateWeights inventory).totalWeight =
        ((jsRound ((((recalculateWeights inventory).rooms).map Room.roomWeight).sum) : ℤ) : ℚ)
      from rfl, hform, sum_map_intCast, jsRound_intCast]

/-- A normalized item exposes its defaulted fields. -/
theorem normalized_fields {item : Item} (h : ensureItemDefaults item = item) :
    item.category ≠ "" ∧ (∃ q, item.weight = JSValue.num q ∧ 0 < q)
    ∧ (∃ b, item.includeInEstimate = some b) ∧ (∃ b, item.isHighValue = some b) := by
  have h1 := congrArg Item.category h
  have h2 := congrArg Item.weight h
  have h3 := congrArg Item.includeInEstimate h
  have h4 := congrArg Item.isHighValue h
  rw [ensureItemDefaults_category] at h1
  rw [ensureItemDefaults_weight] at h2
  rw [ensureItemDefaults_includeInEstimate] at h3
  rw [ensureItemDefaults_isHighValue] at h4
  refine ⟨?_, ⟨_, h2.symm, coerceWeight_pos _ _ (getCategoryDefinition_pos _)⟩,
    ⟨_, h3.symm⟩, ⟨_, h4.symm⟩⟩
  intro hcat
  rw [if_pos hcat, hcat] at h1
  exact inferCategoryFromLabel_ne_empty item.label h1

/-- A normalized item stays normalized under an update that does not touch
the defaulted fields. -/
theorem ensure_fixed_update {item new : Item} (h : ensureItemDefaults item = item)
    (hcat : new.category = item.category) (hw : new.weight = item.weight)
    (hi : new.includeInEstimate = item.includeInEstimate)
    (hh : new.isHighValue = item.isHighValue) :
    ensureItemDefaults new = new := by
  obtain ⟨h1, ⟨q, hq, hq0⟩, ⟨b, hb⟩, ⟨c, hc⟩⟩ := normalized_fields h
  exact ensureItemDefaults_of_fields (by rw [hcat]; exact h1)
    ⟨q, by rw [hw]; exact hq, hq0⟩ ⟨b, by rw [hi]; exact hb⟩ ⟨c, by rw [hh]; exact hc⟩

/-- A fixed point of room recalculation has normalized items and a
recomputed `roomWeight`. -/
theorem recalcRoom_fixed_parts {room : Room} (h : recalcRoom room = room) :
    (∀ it ∈ room.items, ensureItemDefaults it = it)
    ∧ room.roomWeight = ((jsRound (includedSum room.items) : ℤ) : ℚ) := by
  have hitems := congrArg Room.items h
  have hw := congrArg Room.roomWeight h
  rw [recalcRoom_items] at hitems
  rw [recalcRoom_roomWeight] at hw
  exact ⟨eq_self_of_map_eq_self hitems, by rw [← hw, hitems]⟩

/-- Reassemble a fixed point of room recalculation from its parts. -/
theorem recalcRoom_fixed_of_parts {room : Room}
    (hitems : ∀ it ∈ room.items, ensureItemDefaults it = it)
    (hw : room.roomWeight = ((jsRound (includedSum room.items) : ℤ) : ℚ)) :
    recalcRoom room = room := by
  cases room with
  | mk name items roomWeight editMode =>
    simp only at hitems hw
    have hmap : items.map ensureItemDefaults = items := map_eq_self_of_mem hitems
    show Room.mk name (items.map ensureItemDefaults)
      ((jsRound (includedSum (items.map ensureItemDefaults)) : ℤ) : ℚ) editMode
      = Room.mk name items roomWeight editMode
    rw [hmap, hw]

/-- A fixed point of recalculation decomposes roomwise. -/
theorem recalc_fixed_parts {inventory : Inventory}
    (h : recalculateWeights inventory = inventory) :
    (∀ room ∈ inventory.rooms, recalcRoom room = room)
    ∧ inventory.totalWeight = ((jsRound ((inventory.rooms.map Room.roomWeight).sum) : ℤ) : ℚ) := by
  have hrooms := congrArg Inventory.rooms h
  have hw := congrArg Inventory.totalWeight h
  rw [recalculateWeights_rooms] at hrooms
  rw [recalculateWeights_totalWeight] at hw
  exact ⟨eq_self_of_map_eq_self hrooms, by rw [← hw, hrooms]⟩

/-- Reassemble a fixed point of recalculation from roomwise parts. -/
theorem recalc_fixed_of_parts {inventory : Inventory}
    (hrooms : ∀ room ∈ inventory.rooms, recalcRoom room = room)
    (hw : inventory.totalWeight
      = ((jsRound ((inventory.rooms.map Room.roomWeight).sum) : ℤ) : ℚ)) :
    recalculateWeights inventory = inventory := by
  cases inventory with
  | mk rooms totalWeight =>
    simp only at hrooms hw
    have hmap : rooms.map recalcRoom = rooms := map_eq_self_of_mem hrooms
    show Inventory.mk (rooms.map recalcRoom)
      ((jsRound (((rooms.map recalcRoom).map Room.roomWeight).sum) : ℤ) : ℚ)
      = Inventory.mk rooms totalWeight
    rw [hmap, hw]

/-- An item update that keeps every weight-relevant field and preserves
normalization keeps the inventory a fixed point of recalculation. -/
theorem recalc_fixed_updateItemAt {inventory : Inventory} (r i : ℕ) (f : Item → Item)
    (hfix : recalculateWeights inventory = inventory)
    (hc : ∀ it, itemContribution (f it) = itemContribution it)
    (hnorm : ∀ it, ensureItemDefaults it = it → ensureItemDefaults (f it) = f it) :
    recalculateWeights (updateItemAt inventory r i f) = updateItemAt inventory r i f := by
  obtain ⟨hrooms, htw⟩ := recalc_fixed_parts hfix
  apply recalc_fixed_of_parts
  · show ∀ room ∈ listModify inventory.rooms r
      (fun room => { room with items := listModify room.items i f }), recalcRoom room = room
    apply forall_mem_listModify _ _ _ hrooms
    intro rm hrm hfixrm
    obtain ⟨hitems, hwrm⟩ := recalcRoom_fixed_parts hfixrm
    apply recalcRoom_fixed_of_parts
    · show ∀ it ∈ listModify rm.items i f, ensureItemDefaults it = it
      exact forall_mem_listModify _ _ _ hitems (fun it hit h1 => hnorm it h1)
    · show rm.roomWeight = ((jsRound (includedSum (listModify rm.items i f)) : ℤ) : ℚ)
      have : includedSum (listModify rm.items i f) = includedSum rm.items := by
        unfold includedSum
        rw [map_listModify_of_comp _ _ _ _ hc]
      rw [this]
      exact hwrm
  · show inventory.totalWeight =
      ((jsRound (((listModify inventory.rooms r
        (fun room => { room with items := listModify room.items i f })).map
          Room.roomWeight).sum) : ℤ) : ℚ)
    have : (listModify inventory.rooms r
        (fun room => { room with items := listModify room.items i f })).map Room.roomWeight
        = inventory.rooms.map Room.roomWeight :=
      map_listModify_of_comp _ _ _ _ (fun rm => rfl)
    rw [this]
    exact htw

/-- A room update that keeps the items and the stored room weight keeps the
inventory a fixed point of recalculation. -/
theorem recalc_fixed_updateRoomAt {inventory : Inventory} (r : ℕ) (g : Room → Room)
    (hfix : recalculateWeights inventory = inventory)
    (hitems : ∀ rm, (g rm).items = rm.items)
    (hw : ∀ rm, (g rm).roomWeight = rm.roomWeight) :
    recalculateWeights (updateRoomAt inventory r g) = updateRoomAt inventory r g := by
  obtain ⟨hrooms, htw⟩ := recalc_fixed_parts hfix
  apply recalc_fixed_of_parts
  · show ∀ room ∈ listModify inventory.rooms r g, recalcRoom room = room
    apply forall_mem_listModify _ _ _ hrooms
    intro rm hrm hfixrm
    obtain ⟨hit, hwrm⟩ := recalcRoom_fixed_parts hfixrm
    apply recalcRoom_fixed_of_parts
    · rw [hitems rm]
      exact hit
    · rw [hitems rm, hw rm]
      exact hwrm
  · show inventory.totalWeight =
      ((jsRound (((listModify inventory.rooms r g).map Room.roomWeight).sum) : ℤ) : ℚ)
    have : (listModify inventory.rooms r g).map Room.roomWeight
        = inventory.rooms.map Room.roomWeight :=
      map_listModify_of_comp _ _ _ _ hw
    rw [this]
    exact htw

/-- Every public operation leaves the inventory a fixed point of
`recalculateWeights`: the mutating handlers all end in
`syncInventoryState`, and the remaining handlers only touch transient
edit-mode flags, menus, or label settings. -/
theorem recalc_fixed_applyOp (op : Op) (s : AppState)
    (h : recalculateWeights s.inventory = s.inventory) :
    recalculateWeights (applyOp op s).inventory = (applyOp op s).inventory := by
  cases op with
  | addRoom nameRaw =>
    simp only [applyOp, applyAddRoom, syncInventoryState]
    split
    · exact h
    · exact recalculateWeights_idem _
  | addItem r label cat notes =>
    simp only [applyOp, applyAddItem, syncInventoryState]
    split
    · exact h
    · split
      · exact h
      · exact recalculateWeights_idem _
  | updateItemField r i update =>
    simp only [applyOp, applyUpdateItemField, syncInventoryState]
    split
    · exact h
    · split
      · exact h
      · exact recalculateWeights_idem _
  | openItemPanel r i panel =>
    simp only [applyOp, applyOpenItemPanel]
    split
    · exact h
    · split
      · exact h
      · exact recalc_fixed_updateItemAt _ _ _ h (fun it => rfl)
          (fun it hit => ensure_fixed_update hit rfl rfl rfl rfl)
  | cancelItemPanel r i =>
    simp only [applyOp, applyCancelItemPanel]
    split
    · exact h
    · split
      · exact h
      · exact recalc_fixed_updateItemAt _ _ _ h (fun it => rfl)
          (fun it hit => ensure_fixed_update hit rfl rfl rfl rfl)
  | openRoomPanel r =>
    simp only [applyOp, applyOpenRoomPanel]
    split
    · exact h
    · exact recalc_fixed_updateRoomAt _ _ h (fun rm => rfl) (fun rm => rfl)
  | cancelRoomPanel r =>
    simp only [applyOp, applyCancelRoomPanel]
    split
    · exact h
    · exact recalc_fixed_updateRoomAt _ _ h (fun rm => rfl) (fun rm => rfl)
  | confirmRoomRename r newName =>
    simp only [applyOp, applyConfirmRoomRename, syncInventoryState]
    split
    · exact h
    · split
      · exact h
      · exact recalculateWeights_idem _
  | deleteRoom confirmed r =>
    simp only [applyOp, applyDeleteRoom, syncInventoryState]
    split
    · exact h
    · split
      · exact h
      · split
        · split
          · exact recalculateWeights_idem _
          · exact recalculateWeights_idem _
        · exact recalculateWeights_idem _
  | confirmMove r i d =>
    simp only [applyOp, applyConfirmMove, syncInventoryState]
    split
    · exact h
    · split
      · exact h
      · split
        · exact recalc_fixed_updateItemAt _ _ _ h (fun it => rfl)
            (fun it hit => ensure_fixed_update hit rfl rfl rfl rfl)
        · split
          · exact h
          · exact recalculateWeights_idem _
  | confirmRename r i newLabel =>
    simp only [applyOp, applyConfirmRename, syncInventoryState]
    split
    · exact h
    · split
      · exact h
      · split
        · exact h
        · exact recalculateWeights_idem _
  | deleteItem confirmed r i =>
    simp only [applyOp, applyDeleteItem, syncInventoryState]
    split
    · exact h
    · split
      · exact h
      · split
        · exact h
        · split
          · exact recalculateWeights_idem _
          · exact recalculateWeights_idem _
  | openLabelPanel r i =>
    simp only [applyOp, applyOpenLabelPanel]
    split
    · exact h
    · split
      · exact h
      · exact recalc_fixed_updateItemAt _ _ _ h (fun it => rfl)
          (fun it hit => ensure_fixed_update hit rfl rfl rfl rfl)
  | closeLabelPanel =>
    exact h
  | updateLabelSetting update =>
    simp only [applyOp, applyUpdateLabelSetting]
    split
    · exact h
    · split
      · exact h
      · split
        · exact h
        · exact recalc_fixed_updateItemAt _ _ _ h (fun it => rfl)
            (fun it hit => ensure_fixed_update hit rfl rfl rfl rfl)
  | toggleItemMenu r i =>
    simp only [applyOp, applyToggleItemMenu]
    split
    · exact h
    · split
      · exact h
      · exact h
  | toggleRoomMenu r =>
    simp only [applyOp, applyToggleRoomMenu]
    split
    · exact h
    · exact h
  | outsideClick =>
    exact h

/-- The inventory of every reachable page state is a fixed point of
`recalculateWeights` (the startup path syncs the loaded record before the
first render, and every operation preserves the property). -/
theorem reachable_recalc_fixed {s : AppState} (h : Reachable s) :
    recalculateWeights s.inventory = s.inventory := by
  induction h with
  | init loaded => exact recalculateWeights_idem loaded
  | step s op _ ih => exact recalc_fixed_applyOp op s ih

/-- Claim C1: recalculation establishes the weight invariant — every room's
`roomWeight` is the round-half-up of the sum of the weights of its items
with `includeInEstimate` true, and `totalWeight` is the sum of the room
weights — and in every state reachable by the public operations the
invariant holds of the current inventory, because room and total weights are
recomputed together (one `recalculateWeights` pass) after every mutating
operation. -/
theorem C1_weight_invariant :
    (∀ inventory : Inventory, WeightInvariant (recalculateWeights inventory))
    ∧ (∀ s : AppState, Reachable s → WeightInvariant s.inventory) := by
  constructor
  · exact weightInvariant_recalc
  · intro s h
    rw [← reachable_recalc_fixed h]
    exact weightInvariant_recalc _

/-- Witness for C1 at a concrete startup state: a kitchen whose stored
record carries a junk weight and stale totals still satisfies the invariant
once loaded (the startup sync repairs it). -/
theorem C1_weight_invariant_witness :
    WeightInvariant (initialAppState
      { rooms := [{ name := "Kitchen"
                    items := [{ plainItem "Box 1" with weight := JSValue.str "abc" }]
                    roomWeight := 999
                    editMode := none }]
        totalWeight := -3 }).inventory :=
  C1_weight_invariant.2 _ (Reachable.init _)

/-- Claim C5: `resolveWeight` returns the parsed raw weight exactly when it
is a finite number greater than zero and the category's default weight
otherwise, in particular on the inputs 0, -5, "abc", `undefined` and
`null`; as a Lean function it is total and cannot raise. -/
theorem C5_resolveWeight_contract :
    (∀ (rawWeight : JSValue) (category : Category),
      (∀ q, jsToNumber rawWeight = some q → 0 < q → resolveWeight rawWeight category = q)
      ∧ ((jsToNumber rawWeight = none ∨ ∃ q, jsToNumber rawWeight = some q ∧ ¬ 0 < q) →
          resolveWeight rawWeight category = category.defaultWeight))
    ∧ (∀ category : Category,
        resolveWeight (JSValue.num 0) category = category.defaultWeight
        ∧ resolveWeight (JSValue.num (-5)) category = category.defaultWeight
        ∧ resolveWeight (JSValue.str "abc") category = category.defaultWeight
        ∧ resolveWeight JSValue.undef category = category.defaultWeight
        ∧ resolveWeight JSValue.nullv category = category.defaultWeight) := by
  have habc : readDecimal "abc" = none := by with_unfolding_all rfl
  constructor
  · intro rawWeight category
    constructor
    · intro q hq hq0
      unfold resolveWeight coerceWeight
      rw [hq]
      exact if_pos hq0
    · intro hcase
      unfold resolveWeight coerceWeight
      rcases hcase with hnone | ⟨q, hq, hq0⟩
      · rw [hnone]
      · rw [hq]
        exact if_neg hq0
  · intro category
    refine ⟨?_, ?_, ?_, ?_, ?_⟩
    · unfold resolveWeight coerceWeight jsToNumber
      norm_num
    · unfold resolveWeight coerceWeight jsToNumber
      norm_num
    · have h2 : jsToNumber (JSValue.str "abc") = none := habc
      unfold resolveWeight coerceWeight
      rw [h2]
    · rfl
    · unfold resolveWeight coerceWeight jsToNumber
      norm_num

theorem find?_append_or (l1 l2 : List α) (p : α → Bool) :
    (l1 ++ l2).find? p = ((l1.find? p).orElse (fun _ => l2.find? p)) := by
  induction l1 with
  | nil => rfl
  | cons a t ih =>
    by_cases h : p a
    · rw [List.cons_append, List.find?_cons_of_pos _ h, List.find?_cons_of_pos _ h]
      rfl
    · rw [List.cons_append, List.find?_cons_of_neg _ h, List.find?_cons_of_neg _ h]
      exact ih

theorem find?_some_split {p : α → Bool} {l : List α} {a : α} (h : l.find? p = some a) :
    ∃ l1 l2, l = l1 ++ a :: l2 ∧ ∀ x ∈ l1, p x = false := by
  induction l with
  | nil => cases h
  | cons b t ih =>
    by_cases hb : p b
    · refine ⟨[], t, ?_, by intro x hx; cases hx⟩
      have hba : some b = some a := by
        rw [← h, List.find?_cons_of_pos _ hb]
      rw [List.nil_append, Option.some_inj.1 hba]
    · have ht : t.find? p = some a := by
        rw [← h, List.find?_cons_of_neg _ hb]
      obtain ⟨l1, l2, rfl, hl1⟩ := ih ht
      refine ⟨b :: l1, l2, rfl, ?_⟩
      intro x hx
      rcases List.mem_cons.1 hx with rfl | hx
      · simpa using hb
      · exact hl1 x hx

theorem findInItems_eq_find? (room : Room) (code : String) (items : List Item) :
    findInItems room code items
      = (items.map (fun item => (room, item))).find? (fun p => itemMatchesCode code p.2) := by
  induction items with
  | nil => rfl
  | cons it t ih =>
    by_cases h : itemMatchesCode code it
    · show (if itemMatchesCode code it then some (room, it) else findInItems room code t) = _
      rw [if_pos h, List.map_cons]
      exact (@List.find?_cons_of_pos _ (fun p => itemMatchesCode code p.2) (room, it)
        (t.map (fun item => (room, item))) h).symm
    · show (if itemMatchesCode code it then some (room, it) else findInItems room code t) = _
      rw [if_neg h, List.map_cons,
        @List.find?_cons_of_neg _ (fun p => itemMatchesCode code p.2) (room, it)
          (t.map (fun item => (room, item))) h]
      exact ih

theorem resolveByCode_eq_find? (code : String) (rooms : List Room) :
    resolveByCode code rooms
      = (scanPairs rooms).find? (fun p => itemMatchesCode code p.2) := by
  induction rooms with
  | nil => rfl
  | cons room rest ih =>
    show (match findInItems room code room.items with
      | some found => some found
      | none => resolveByCode code rest) = _
    have hscan : scanPairs (room :: rest)
        = room.items.map (fun item => (room, item)) ++ scanPairs rest := by
      simp [scanPairs]
    rw [hscan, find?_append_or, findInItems_eq_find? room code room.items]
    cases hfi : (room.items.map (fun item => (room, item))).find?
        (fun p => itemMatchesCode code p.2) with
    | some found => rfl
    | none => simpa using ih

theorem mem_scanPairs {rooms : List Room} {p : Room × Item} :
    p ∈ scanPairs rooms ↔ ∃ room ∈ rooms, ∃ item ∈ room.items, p = (room, item) := by
  unfold scanPairs
  constructor
  · intro h
    obtain ⟨room, hroom, hp⟩ := List.mem_flatMap.1 h
    obtain ⟨item, hitem, rfl⟩ := List.mem_map.1 hp
    exact ⟨room, hroom, item, hitem, rfl⟩
  · rintro ⟨room, hroom, item, hitem, rfl⟩
    exact List.mem_flatMap.2 ⟨room, hroom, List.mem_map.2 ⟨item, hitem, rfl⟩⟩

/-- Claim C4 (spec-modelled identity engine): `resolveByCode` returns `none`
exactly when no item of any room matches the code on `id` or `qrValue` (a
miss is a defined outcome, not an error), and a hit is the first matching
(room, item) pair in scan order; item creation through the Identity Issuer
(`addItemIssued`) stamps exactly the freshly issued id — which doubles as
the QR payload — onto the new item and leaves every existing item's identity
untouched, and the normalization pass run by every recalculation never
rewrites `id` or `qrValue`. -/
theorem C4_identity_resolution :
    (∀ (rooms : List Room) (code : String),
      (resolveByCode code rooms = none ↔
        ∀ room ∈ rooms, ∀ item ∈ room.items, itemMatchesCode code item = false)
      ∧ (∀ (room : Room) (item : Item), resolveByCode code rooms = some (room, item) →
          itemMatchesCode code item = true
          ∧ ∃ l1 l2, scanPairs rooms = l1 ++ (room, item) :: l2
              ∧ ∀ p ∈ l1, itemMatchesCode code p.2 = false))
    ∧ (∀ (freshId : String) (roomIndex : ℕ) (labelRaw categoryRaw notes : String)
        (s : AppState) (room : Room),
        s.inventory.rooms[roomIndex]? = some room →
        roomIndex < s.inventory.rooms.length →
        jsTrim labelRaw ≠ "" →
        (((addItemIssued freshId roomIndex labelRaw categoryRaw notes s).inventory.rooms[roomIndex]?).map
            (fun rm => rm.items.map Item.id))
          = some (room.items.map Item.id ++ [some freshId])
        ∧ ∀ j : ℕ, j ≠ roomIndex →
            (((addItemIssued freshId roomIndex labelRaw categoryRaw notes s).inventory.rooms[j]?).map
              (fun rm => rm.items.map Item.id))
            = ((s.inventory.rooms[j]?).map (fun rm => rm.items.map Item.id)))
    ∧ (∀ item : Item, (ensureItemDefaults item).id = item.id
        ∧ (ensureItemDefaults item).qrValue = item.qrValue) := by
  refine ⟨?_, ?_, fun item => ⟨rfl, rfl⟩⟩
  · intro rooms code
    constructor
    · rw [resolveByCode_eq_find?, List.find?_eq_none]
      constructor
      · intro h room hroom item hitem
        simpa using h (room, item) (mem_scanPairs.2 ⟨room, hroom, item, hitem, rfl⟩)
      · intro h p hp
        obtain ⟨room, hroom, item, hitem, rfl⟩ := mem_scanPairs.1 hp
        simpa using h room hroom item hitem
    · intro room item h
      rw [resolveByCode_eq_find?] at h
      have hmatch := List.find?_some h
      obtain ⟨l1, l2, hsplit, hl1⟩ := find?_some_split h
      exact ⟨hmatch, l1, l2, hsplit, hl1⟩
  · intro freshId roomIndex labelRaw categoryRaw notes s room hroom hlen hlabel
    have hidmap : ∀ rm : Room,
        (recalcRoom rm).items.map Item.id = rm.items.map Item.id := by
      intro rm
      rw [recalcRoom_items, List.map_map]
      apply List.map_congr_left
      intro a _
      rfl
    simp only [addItemIssued, if_neg hlabel, if_neg (not_le.2 hlen)]
    constructor
    · show ((((updateRoomAt s.inventory roomIndex _).rooms.map recalcRoom)[roomIndex]?).map
        (fun rm => rm.items.map Item.id)) = _
      rw [List.getElem?_map]
      show ((((listModify s.inventory.rooms roomIndex _)[roomIndex]?).map recalcRoom).map
        (fun rm => rm.items.map Item.id)) = _
      rw [getElem?_listModify, if_pos rfl, hroom]
      show some ((recalcRoom _).items.map Item.id) = _
      rw [hidmap]
      simp
    · intro j hj
      show ((((updateRoomAt s.inventory roomIndex _).rooms.map recalcRoom)[j]?).map
        (fun rm => rm.items.map Item.id)) = _
      rw [List.getElem?_map]
      show ((((listModify s.inventory.rooms roomIndex _)[j]?).map recalcRoom).map
        (fun rm => rm.items.map Item.id)) = _
      rw [getElem?_listModify, if_neg hj]
      cases hgj : s.inventory.rooms[j]? with
      | none => rfl
      | some rm =>
        show some ((recalcRoom rm).items.map Item.id) = some (rm.items.map Item.id)
        rw [hidmap]

/-- Witness for C4: in an inventory holding the item with id "box-1",
resolution finds it for "box-1", misses for "box-999", and issued creation
stamps the fresh id. -/
theorem C4_identity_resolution_witness :
    resolveByCode "box-999" [fixedRoom "Storage" [taggedItem "Box 1" "box-1"]] = none
    ∧ itemMatchesCode "box-1" (taggedItem "Box 1" "box-1") = true
    ∧ (((addItemIssued "id-7" 0 "Lamp" "Miscellaneous" ""
          (idleState (fixedInventory [fixedRoom "Storage" []]))).inventory.rooms[0]?).map
        (fun rm => rm.items.map Item.id)) = some [some "id-7"] :=
  ⟨(C4_identity_resolution.1 _ "box-999").1.mpr (by with_unfolding_all decide),
   ((C4_identity_resolution.1 [fixedRoom "Storage" [taggedItem "Box 1" "box-1"]] "box-1").2
      (fixedRoom "Storage" [taggedItem "Box 1" "box-1"]) (taggedItem "Box 1" "box-1")
      (by with_unfolding_all rfl)).1,
   by
    have h := (C4_identity_resolution.2.1 "id-7" 0 "Lamp" "Miscellaneous" ""
      (idleState (fixedInventory [fixedRoom "Storage" []])) (fixedRoom "Storage" [])
      (by with_unfolding_all rfl) (by with_unfolding_all decide)
      (by with_unfolding_all decide)).1
    simpa using h⟩

/-- Claim C2: a confirmed `deleteItem(r, i)` on a room with `i < n` items
removes exactly the item at `i` (later items shift down by one, which is
`List.eraseIdx`); if the open label panel pointed at the deleted item the
panel is closed and its reference cleared, and if it pointed at a later
index `j` of the same room the reference becomes `j - 1`, still denoting
the same underlying item. -/
theorem C2_deleteItem_shift :
    ∀ (s : AppState) (r i : ℕ) (room : Room),
      s.inventory.rooms[r]? = some room →
      i < room.items.length →
      (∀ it ∈ room.items, ensureItemDefaults it = it) →
      (((applyDeleteItem true r i s).inventory.rooms[r]?).map Room.items)
          = some (room.items.eraseIdx i)
      ∧ (s.activeLabelItem = some (r, i) →
          (applyDeleteItem true r i s).activeLabelItem = none
          ∧ (applyDeleteItem true r i s).labelPanelHidden = true)
      ∧ (∀ j, i < j → s.activeLabelItem = some (r, j) →
          (applyDeleteItem true r i s).activeLabelItem = some (r, j - 1)
          ∧ ((applyDeleteItem true r i s).inventory.rooms[r]?.bind
              (fun rm => rm.items[j - 1]?)) = room.items[j]?) := by
  intro s r i room hroom hlen hnorm
  obtain ⟨item, hitem⟩ : ∃ item, room.items[i]? = some item := by
    rw [List.getElem?_eq_getElem hlen]
    exact ⟨_, rfl⟩
  have herase : ∀ it ∈ room.items.eraseIdx i, ensureItemDefaults it = it :=
    fun it hit => hnorm it (mem_of_mem_eraseIdx hit)
  have hrooms' : ((syncInventoryState (updateRoomAt s.inventory r
      (fun rm => { rm with items := rm.items.eraseIdx i }))).rooms[r]?).map Room.items
      = some (room.items.eraseIdx i) := by
    show (((listModify s.inventory.rooms r _).map recalcRoom)[r]?).map Room.items = _
    rw [List.getElem?_map, getElem?_listModify, if_pos rfl, hroom]
    show some ((recalcRoom { room with items := room.items.eraseIdx i }).items) = _
    rw [recalcRoom_items]
    show some ((room.items.eraseIdx i).map ensureItemDefaults) = _
    rw [map_eq_self_of_mem herase]
  simp only [applyDeleteItem, hroom, hitem]
  rw [if_neg (fun h => h trivial)]
  by_cases hact : s.activeLabelItem = some (r, i)
  · rw [if_pos hact]
    refine ⟨hrooms', fun _ => ⟨rfl, rfl⟩, ?_⟩
    intro j hij hj
    rw [hact] at hj
    have : i = j := congrArg Prod.snd (Option.some_inj.1 hj)
    omega
  · rw [if_neg hact]
    refine ⟨hrooms', fun hcontra => absurd hcontra hact, ?_⟩
    intro j hij hj
    constructor
    · show adjustActiveLabelIndexOnRemoval r i s.activeLabelItem = some (r, j - 1)
      rw [hj]
      show (if r = r ∧ i < j then some (r, j - 1) else some (r, j)) = some (r, j - 1)
      rw [if_pos ⟨rfl, hij⟩]
    · have hj1 : j - 1 + 1 = j := by omega
      have hbind := hrooms'
      show ((syncInventoryState (updateRoomAt s.inventory r
          (fun rm => { rm with items := rm.items.eraseIdx i }))).rooms[r]?.bind
            (fun rm => rm.items[j - 1]?)) = room.items[j]?
      cases hx : (syncInventoryState (updateRoomAt s.inventory r
          (fun rm => { rm with items := rm.items.eraseIdx i }))).rooms[r]? with
      | none => rw [hx] at hbind; cases hbind
      | some rm =>
        rw [hx] at hbind
        have hitems : rm.items = room.items.eraseIdx i := by
          simpa using hbind
        show rm.items[j - 1]? = room.items[j]?
        rw [hitems, getElem?_eraseIdx_ge _ _ _ (by omega), hj1]

/-- Witness for C2, the spec's own example: deleting index 2 of a five-item
room while the label panel shows index 4 leaves the panel on index 3 with
the same underlying item ("e"). -/
theorem C2_deleteItem_shift_witness :
    (((applyDeleteItem true 0 2
        { idleState (fixedInventory [fixedRoom "Den"
            [plainItem "a", plainItem "b", plainItem "c", plainItem "d", plainItem "e"]]) with
          activeLabelItem := some (0, 4), labelPanelHidden := false }).inventory.rooms[0]?).map
            Room.items)
      = some ((fixedRoom "Den" [plainItem "a", plainItem "b", plainItem "c", plainItem "d",
          plainItem "e"]).items.eraseIdx 2)
    ∧ (applyDeleteItem true 0 2
        { idleState (fixedInventory [fixedRoom "Den"
            [plainItem "a", plainItem "b", plainItem "c", plainItem "d", plainItem "e"]]) with
          activeLabelItem := some (0, 4), labelPanelHidden := false }).activeLabelItem
      = some (0, 3) := by
  have h := C2_deleteItem_shift
    { idleState (fixedInventory [fixedRoom "Den"
        [plainItem "a", plainItem "b", plainItem "c", plainItem "d", plainItem "e"]]) with
      activeLabelItem := some (0, 4), labelPanelHidden := false }
    0 2 (fixedRoom "Den" [plainItem "a", plainItem "b", plainItem "c", plainItem "d",
      plainItem "e"])
    (by with_unfolding_all rfl) (by with_unfolding_all decide) (by with_unfolding_all decide)
  exact ⟨h.1, (h.2.2 4 (by norm_num) rfl).1⟩

/-- Counterexample to C3 as stated: with two items in one room, opening the
move panel on item 0 and then the rename panel on item 1 leaves BOTH panels
open — `setItemEditMode` only writes the target row's edit mode and closes
nothing else — so opening B's panel does not close A's and two item panels
are open at once. -/
theorem C3_panel_exclusivity_counterexample :
    (((applyOpenItemPanel 0 1 PanelKind.rename
        (applyOpenItemPanel 0 0 PanelKind.move
          (idleState (fixedInventory
            [fixedRoom "Den" [plainItem "a", plainItem "b"]])))).inventory.rooms[0]?.bind
        (fun rm => rm.items[0]?)).map Item.editMode) = some (some PanelKind.move)
    ∧ (((applyOpenItemPanel 0 1 PanelKind.rename
        (applyOpenItemPanel 0 0 PanelKind.move
          (idleState (fixedInventory
            [fixedRoom "Den" [plainItem "a", plainItem "b"]])))).inventory.rooms[0]?.bind
        (fun rm => rm.items[1]?)).map Item.editMode) = some (some PanelKind.rename) := by
  with_unfolding_all decide

/-- Claim C3 (amended): opening an edit panel (move or rename) for a row
sets only that row's edit mode and closes every action menu; the edit mode
of every other item row and of every room is left unchanged, so a panel
already open on another row stays open — panel exclusivity is not enforced,
only menu exclusivity is. -/
theorem C3_open_panel_amended :
    ∀ (s : AppState) (r i : ℕ) (panel : PanelKind) (room : Room) (item : Item),
      s.inventory.rooms[r]? = some room →
      room.items[i]? = some item →
      ((((applyOpenItemPanel r i panel s).inventory.rooms[r]?).bind
          (fun rm => rm.items[i]?)).map Item.editMode) = some (some panel)
      ∧ (∀ r' i' : ℕ, (r', i') ≠ (r, i) →
          ((((applyOpenItemPanel r i panel s).inventory.rooms[r']?).bind
            (fun rm => rm.items[i']?)).map Item.editMode)
          = (((s.inventory.rooms[r']?).bind (fun rm => rm.items[i']?)).map Item.editMode))
      ∧ (∀ r' : ℕ, (((applyOpenItemPanel r i panel s).inventory.rooms[r']?).map Room.editMode)
          = ((s.inventory.rooms[r']?).map Room.editMode))
      ∧ (applyOpenItemPanel r i panel s).activeMenuItemId = none
      ∧ (applyOpenItemPanel r i panel s).activeRoomMenuIndex = none := by
  intro s r i panel room item hroom hitem
  simp only [applyOpenItemPanel, hroom, hitem]
  refine ⟨?_, ?_, ?_, trivial, trivial⟩
  · show (((listModify s.inventory.rooms r _)[r]?).bind (fun rm => rm.items[i]?)).map
      Item.editMode = _
    rw [getElem?_listModify, if_pos rfl, hroom]
    show ((listModify room.items i _)[i]?).map Item.editMode = _
    rw [getElem?_listModify, if_pos rfl, hitem]
    rfl
  · intro r' i' hne
    show (((listModify s.inventory.rooms r _)[r']?).bind (fun rm => rm.items[i']?)).map
      Item.editMode = _
    rw [getElem?_listModify]
    by_cases hr : r' = r
    · subst hr
      rw [if_pos rfl, hroom]
      have hi : i' ≠ i := fun hi => hne (by rw [hi])
      show ((listModify room.items i _)[i']?).map Item.editMode = _
      rw [getElem?_listModify, if_neg hi]
      rfl
    · rw [if_neg hr]
  · intro r'
    show (((listModify s.inventory.rooms r _)[r']?).map Room.editMode) = _
    rw [getElem?_listModify]
    by_cases hr : r' = r
    · subst hr
      rw [if_pos rfl, hroom]
      rfl
    · rw [if_neg hr]

/-- Witness for the amended C3: on a two-item room with item 0's move panel
open, opening item 1's rename panel leaves item 0's edit mode untouched. -/
theorem C3_open_panel_amended_witness :
    ((((applyOpenItemPanel 0 1 PanelKind.rename
        { idleState (fixedInventory [fixedRoom "Den"
            [{ plainItem "a" with editMode := some PanelKind.move }, plainItem "b"]]) with
          activeMenuItemId := some (0, 1) }).inventory.rooms[0]?).bind
        (fun rm => rm.items[1]?)).map Item.editMode) = some (some PanelKind.rename)
    ∧ (applyOpenItemPanel 0 1 PanelKind.rename
        { idleState (fixedInventory [fixedRoom "Den"
            [{ plainItem "a" with editMode := some PanelKind.move }, plainItem "b"]]) with
          activeMenuItemId := some (0, 1) }).activeMenuItemId = none := by
  have h := C3_open_panel_amended
    { idleState (fixedInventory [fixedRoom "Den"
        [{ plainItem "a" with editMode := some PanelKind.move }, plainItem "b"]]) with
      activeMenuItemId := some (0, 1) }
    0 1 PanelKind.rename
    (fixedRoom "Den" [{ plainItem "a" with editMode := some PanelKind.move }, plainItem "b"])
    ({ plainItem "b" with editMode := none })
    (by with_unfolding_all rfl) (by with_unfolding_all rfl)
  exact ⟨h.1, h.2.2.2.1⟩

/-- Counterexample to C6 as stated: `confirm-move` with destination equal to
the source is NOT a no-op — it clears the item's open edit panel
(`setItemEditMode(..., null)`), so a state whose item has its move panel
open is changed. -/
theorem C6_moveItem_counterexample :
    applyConfirmMove 0 0 0
      (idleState (fixedInventory
        [fixedRoom "Den" [{ plainItem "a" with editMode := some PanelKind.move }]]))
    ≠ idleState (fixedInventory
        [fixedRoom "Den" [{ plainItem "a" with editMode := some PanelKind.move }]]) := by
  with_unfolding_all decide

/-- Claim C6 (amended): when source and destination coincide `confirm-move`
only closes the item's panel (clears its edit mode), leaving everything else
unchanged; otherwise it removes the item at `i` from the source room
(shifting later indices down by one), appends it — with its panel closed and
its label-settings room rewritten exactly when it still equalled the source
room's name — at the end of the destination's list, follows the open label
panel to the moved item or shifts references to later items of the source
room, and the rewrite rule itself fires precisely on an exact match with the
old room name. -/
theorem C6_moveItem_spec :
    (∀ (s : AppState) (r i : ℕ) (room : Room) (item : Item),
      s.inventory.rooms[r]? = some room → room.items[i]? = some item →
      applyConfirmMove r i r s
        = { s with inventory := updateItemAt s.inventory r i (fun it => { it with editMode := none }) })
    ∧ (∀ (s : AppState) (r i d : ℕ) (src dst : Room) (item : Item),
      s.inventory.rooms[r]? = some src →
      src.items[i]? = some item →
      s.inventory.rooms[d]? = some dst →
      d ≠ r →
      (∀ it ∈ src.items, ensureItemDefaults it = it) →
      (∀ it ∈ dst.items, ensureItemDefaults it = it) →
      (((applyConfirmMove r i d s).inventory.rooms[r]?).map Room.items)
          = some (src.items.eraseIdx i)
      ∧ (((applyConfirmMove r i d s).inventory.rooms[d]?).map Room.items)
          = some (dst.items
              ++ [renamePropagateMove src.name dst.name { item with editMode := none }])
      ∧ (s.activeLabelItem = some (r, i) →
          (applyConfirmMove r i d s).activeLabelItem = some (d, dst.items.length))
      ∧ (∀ j, i < j → s.activeLabelItem = some (r, j) →
          (applyConfirmMove r i d s).activeLabelItem = some (r, j - 1)))
    ∧ (∀ (oldName destName : String) (it : Item),
        (it.labelSettings = none →
          (renamePropagateMove oldName destName it).labelSettings = none)
        ∧ (∀ ls, it.labelSettings = some ls →
            (renamePropagateMove oldName destName it).labelSettings
              = some (if ls.room = oldName then { ls with room := destName } else ls))) := by
  refine ⟨?_, ?_, ?_⟩
  · intro s r i room item hroom hitem
    simp only [applyConfirmMove, hroom, hitem]
    rw [if_pos trivial]
  · intro s r i d src dst item hroom hitem hdst hd hnormsrc hnormdst
    have hitemmem : item ∈ src.items := by
      have := List.getElem?_eq_some.1 hitem
      obtain ⟨hlt, hget⟩ := this
      exact hget ▸ List.getElem_mem _
    have hitemnorm : ensureItemDefaults item = item := hnormsrc item hitemmem
    have hclosed : ensureItemDefaults { item with editMode := none }
        = { item with editMode := none } :=
      ensure_fixed_update hitemnorm rfl rfl rfl rfl
    have hmoved : ensureItemDefaults
        (renamePropagateMove src.name dst.name { item with editMode := none })
        = renamePropagateMove src.name dst.name { item with editMode := none } := by
      unfold renamePropagateMove
      split
      · exact hclosed
      · split
        · exact ensure_fixed_update hclosed rfl rfl rfl rfl
        · exact hclosed
    simp only [applyConfirmMove, hroom, hitem]
    rw [if_neg hd]
    simp only [hdst]
    have hrd : r ≠ d := fun h => hd h.symm
    refine ⟨?_, ?_, ?_, ?_⟩
    · show (((listModify (listModify s.inventory.rooms r _) d _).map
        recalcRoom)[r]?).map Room.items = _
      rw [List.getElem?_map, getElem?_listModify, if_neg hrd,
        getElem?_listModify, if_pos rfl, hroom]
      show some ((src.items.eraseIdx i).map ensureItemDefaults) = _
      rw [map_eq_self_of_mem (fun it hit => hnormsrc it (mem_of_mem_eraseIdx hit))]
    · show (((listModify (listModify s.inventory.rooms r _) d _).map
        recalcRoom)[d]?).map Room.items = _
      rw [List.getElem?_map, getElem?_listModify, if_pos rfl,
        getElem?_listModify, if_neg hd, hdst]
      show some (((dst.items
          ++ [renamePropagateMove src.name dst.name { item with editMode := none }]).map
            ensureItemDefaults)) = _
      rw [List.map_append, map_eq_self_of_mem hnormdst]
      show some (dst.items ++ [ensureItemDefaults
        (renamePropagateMove src.name dst.name { item with editMode := none })]) = _
      rw [hmoved]
    · intro hact
      show (if s.activeLabelItem = some (r, i) then some (d, dst.items.length)
        else adjustActiveLabelIndexOnRemoval r i s.activeLabelItem) = _
      rw [if_pos hact]
    · intro j hij hact
      have hne : ¬ s.activeLabelItem = some (r, i) := by
        rw [hact]
        intro hcontra
        have : j = i := congrArg Prod.snd (Option.some_inj.1 hcontra)
        omega
      show (if s.activeLabelItem = some (r, i) then some (d, dst.items.length)
        else adjustActiveLabelIndexOnRemoval r i s.activeLabelItem) = _
      rw [if_neg hne, hact]
      show (if r = r ∧ i < j then some (r, j - 1) else some (r, j)) = some (r, j - 1)
      rw [if_pos ⟨rfl, hij⟩]
  · intro oldName destName it
    constructor
    · intro hnone
      unfold renamePropagateMove
      rw [hnone]
      exact hnone
    · intro ls hls
      unfold renamePropagateMove
      rw [hls]
      show (if ls.room = oldName
          then ({ it with labelSettings := some { ls with room := destName } } : Item)
          else it).labelSettings
        = some (if ls.room = oldName then { ls with room := destName } else ls)
      by_cases hlr : ls.room = oldName
      · rw [if_pos hlr, if_pos hlr]
      · rw [if_neg hlr, if_neg hlr]
        exact hls

/-- Witness for C6, the spec's own example: moving "X" out of Room A
(holding [X, Y]) into Room B leaves A = [Y], appends X to B, and rewrites
X's label-settings room from "A" to "B". -/
theorem C6_moveItem_spec_witness :
    (((applyConfirmMove 0 0 1
        (idleState (fixedInventory
          [fixedRoom "A" [{ taggedItem "X" "x" with labelSettings := some (settingsIn "X" "A") }, plainItem "Y"],
           fixedRoom "B" []]))).inventory.rooms[0]?).map Room.items)
      = some [plainItem "Y"]
    ∧ (((applyConfirmMove 0 0 1
        (idleState (fixedInventory
          [fixedRoom "A" [{ taggedItem "X" "x" with labelSettings := some (settingsIn "X" "A") }, plainItem "Y"],
           fixedRoom "B" []]))).inventory.rooms[1]?).map Room.items)
      = some [{ taggedItem "X" "x" with labelSettings := some (settingsIn "X" "B") }] := by
  have h := C6_moveItem_spec.2.1
    (idleState (fixedInventory
      [fixedRoom "A" [{ taggedItem "X" "x" with labelSettings := some (settingsIn "X" "A") }, plainItem "Y"],
       fixedRoom "B" []]))
    0 0 1
    (fixedRoom "A" [{ taggedItem "X" "x" with labelSettings := some (settingsIn "X" "A") }, plainItem "Y"])
    (fixedRoom "B" [])
    ({ taggedItem "X" "x" with labelSettings := some (settingsIn "X" "A") })
    (by with_unfolding_all rfl) (by with_unfolding_all rfl) (by with_unfolding_all rfl)
    (by decide) (by with_unfolding_all decide) (by with_unfolding_all decide)
  refine ⟨?_, ?_⟩
  · have h1 := h.1
    rw [h1]
    with_unfolding_all rfl
  · have h2 := h.2.1
    rw [h2]
    with_unfolding_all rfl

theorem ensure_fixed_renamePropagate {oldName newName : String} {it : Item}
    (h : ensureItemDefaults it = it) :
    ensureItemDefaults (renamePropagate oldName newName it)
      = renamePropagate oldName newName it := by
  unfold renamePropagate
  split
  · exact h
  · split
    · exact ensure_fixed_update h rfl rfl rfl rfl
    · exact h

/-- The room-field effect of the rename propagation: refreshed exactly when
the stored field is empty (falsy) or still equals the old name. -/
theorem renamePropagate_room_field (oldName newName : String) (it : Item) (ls : LabelSettings)
    (hls : it.labelSettings = some ls) :
    (renamePropagate oldName newName it).labelSettings.map LabelSettings.room
      = some (if ls.room = "" ∨ ls.room = oldName then newName else ls.room) := by
  unfold renamePropagate
  rw [hls]
  show (if ls.room = "" ∨ ls.room = oldName
      then ({ it with labelSettings := some { ls with room := newName } } : Item)
      else it).labelSettings.map LabelSettings.room = _
  by_cases hcond : ls.room = "" ∨ ls.room = oldName
  · rw [if_pos hcond, if_pos hcond]
    rfl
  · rw [if_neg hcond, if_neg hcond, hls]
    rfl

/-- Counterexample to C7 as stated: an item whose LabelSettings.room was
manually overridden to the empty string — a value different from the old
room name "A" — is still rewritten by the rename (the code refreshes on any
falsy `room`), so such overridden items are NOT left unchanged. -/
theorem C7_renameRoom_counterexample :
    ((((applyConfirmRoomRename 0 "Garage"
        (idleState (fixedInventory [fixedRoom "A"
          [{ plainItem "a" with labelSettings := some (settingsIn "a" "") }]]))).inventory.rooms[0]?).bind
      (fun rm => rm.items[0]?)).map (fun it => it.labelSettings.map LabelSettings.room))
      = some (some "Garage")
    ∧ ("" : String) ≠ "A" := by
  constructor
  · with_unfolding_all decide
  · decide

/-- Claim C7 (amended): `renameRoom` is a true no-op on a whitespace-only
name; on success it renames the room and rewrites each contained item's
LabelSettings.room to the new name exactly when that field still equals the
old room name OR is empty (falsy); items overridden to any other non-empty
value keep their override. -/
theorem C7_renameRoom_spec :
    ∀ (s : AppState) (r : ℕ) (newNameRaw : String) (room : Room),
      s.inventory.rooms[r]? = some room →
      (∀ it ∈ room.items, ensureItemDefaults it = it) →
      (jsTrim newNameRaw = "" → applyConfirmRoomRename r newNameRaw s = s)
      ∧ (jsTrim newNameRaw ≠ "" →
          (((applyConfirmRoomRename r newNameRaw s).inventory.rooms[r]?).map Room.name)
            = some (jsTrim newNameRaw)
          ∧ (∀ (j : ℕ) (item : Item), room.items[j]? = some item →
              ((((applyConfirmRoomRename r newNameRaw s).inventory.rooms[r]?).bind
                (fun rm => rm.items[j]?)).map (fun it => it.labelSettings.map LabelSettings.room))
              = some (match item.labelSettings with
                  | none => none
                  | some ls => some (if ls.room = "" ∨ ls.room = room.name
                      then jsTrim newNameRaw else ls.room)))) := by
  intro s r newNameRaw room hroom hnorm
  constructor
  · intro hempty
    simp only [applyConfirmRoomRename, hroom]
    rw [if_pos hempty]
  · intro hne
    simp only [applyConfirmRoomRename, hroom]
    rw [if_neg hne]
    constructor
    · show ((((listModify s.inventory.rooms r _).map recalcRoom)[r]?).map Room.name) = _
      rw [List.getElem?_map, getElem?_listModify, if_pos rfl, hroom]
      rfl
    · intro j item hj
      show ((((listModify s.inventory.rooms r _).map recalcRoom)[r]?).bind
        (fun rm => rm.items[j]?)).map (fun it => it.labelSettings.map LabelSettings.room) = _
      rw [List.getElem?_map, getElem?_listModify, if_pos rfl, hroom]
      show (((room.items.map (renamePropagate room.name (jsTrim newNameRaw))).map
          ensureItemDefaults)[j]?).map (fun it => it.labelSettings.map LabelSettings.room) = _
      have hfixed : (room.items.map (renamePropagate room.name (jsTrim newNameRaw))).map
          ensureItemDefaults = room.items.map (renamePropagate room.name (jsTrim newNameRaw)) := by
        rw [List.map_map]
        apply List.map_congr_left
        intro a ha
        exact ensure_fixed_renamePropagate (hnorm a ha)
      rw [hfixed, List.getElem?_map, hj]
      show some ((renamePropagate room.name (jsTrim newNameRaw) item).labelSettings.map
        LabelSettings.room) = _
      cases hls : item.labelSettings with
      | none =>
        have : (renamePropagate room.name (jsTrim newNameRaw) item).labelSettings = none := by
          unfold renamePropagate
          rw [hls]
          exact hls
        rw [this]
        rfl
      | some ls =>
        rw [renamePropagate_room_field room.name (jsTrim newNameRaw) item ls hls]

/-- Witness for the amended C7: renaming room "A" to "Garage" rewrites an
item still showing "A", leaves an item overridden to "Attic" alone, and is a
no-op for a blank name. -/
theorem C7_renameRoom_spec_witness :
    ((((applyConfirmRoomRename 0 "Garage"
        (idleState (fixedInventory [fixedRoom "A"
          [{ plainItem "a" with labelSettings := some (settingsIn "a" "A") },
           { plainItem "b" with labelSettings := some (settingsIn "b" "Attic") }]]))).inventory.rooms[0]?).bind
      (fun rm => rm.items[0]?)).map (fun it => it.labelSettings.map LabelSettings.room))
      = some (some "Garage")
    ∧ ((((applyConfirmRoomRename 0 "Garage"
        (idleState (fixedInventory [fixedRoom "A"
          [{ plainItem "a" with labelSettings := some (settingsIn "a" "A") },
           { plainItem "b" with labelSettings := some (settingsIn "b" "Attic") }]]))).inventory.rooms[0]?).bind
      (fun rm => rm.items[1]?)).map (fun it => it.labelSettings.map LabelSettings.room))
      = some (some "Attic")
    ∧ applyConfirmRoomRename 0 "   "
        (idleState (fixedInventory [fixedRoom "A" []]))
      = idleState (fixedInventory [fixedRoom "A" []]) := by
  have h := C7_renameRoom_spec
    (idleState (fixedInventory [fixedRoom "A"
      [{ plainItem "a" with labelSettings := some (settingsIn "a" "A") },
       { plainItem "b" with labelSettings := some (settingsIn "b" "Attic") }]]))
    0 "Garage"
    (fixedRoom "A"
      [{ plainItem "a" with labelSettings := some (settingsIn "a" "A") },
       { plainItem "b" with labelSettings := some (settingsIn "b" "Attic") }])
    (by with_unfolding_all rfl) (by with_unfolding_all decide)
  have hblank := C7_renameRoom_spec
    (idleState (fixedInventory [fixedRoom "A" []])) 0 "   " (fixedRoom "A" [])
    (by with_unfolding_all rfl) (by with_unfolding_all decide)
  have hg : jsTrim "Garage" ≠ "" := by with_unfolding_all decide
  refine ⟨?_, ?_, (hblank.1 (by with_unfolding_all rfl))⟩
  · have := (h.2 hg).2 0
      ({ plainItem "a" with labelSettings := some (settingsIn "a" "A") } : Item)
      (by with_unfolding_all rfl)
    rw [this]
    with_unfolding_all rfl
  · have := (h.2 hg).2 1
      ({ plainItem "b" with labelSettings := some (settingsIn "b" "Attic") } : Item)
      (by with_unfolding_all rfl)
    rw [this]
    with_unfolding_all rfl

/-- Deserializing a serialized tree is exactly the edit-mode strip: every
other field survives the round trip unchanged. -/
theorem roundtrip_eq_strip (inventory : Inventory) :
    deserializeInventory (serializeInventory inventory) = stripEditModes inventory := by
  cases inventory with
  | mk rooms tw =>
    simp only [serializeInventory, deserializeInventory, stripEditModes, Inventory.mk.injEq,
      List.map_map]
    refine ⟨?_, trivial⟩
    apply List.map_congr_left
    intro rm _
    cases rm with
    | mk name items rw2 em =>
      simp only [Function.comp, serializeRoom, deserializeRoom, stripRoomEditModes,
        Room.mk.injEq, List.map_map]
      refine ⟨trivial, ?_, trivial, trivial⟩
      apply List.map_congr_left
      intro it _
      rfl

/-- Recalculation commutes with stripping the transient edit modes. -/
theorem recalc_strip_comm (inventory : Inventory) :
    recalculateWeights (stripEditModes inventory)
      = stripEditModes (recalculateWeights inventory) := by
  have hroom : ∀ rm : Room,
      recalcRoom (stripRoomEditModes rm) = stripRoomEditModes (recalcRoom rm) := by
    intro rm
    cases rm with
    | mk name items rw2 em =>
      have hitems : (items.map stripItemEditMode).map ensureItemDefaults
          = (items.map ensureItemDefaults).map stripItemEditMode := by
        rw [List.map_map, List.map_map]
        apply List.map_congr_left
        intro it _
        rfl
      have hsum2 : includedSum ((items.map ensureItemDefaults).map stripItemEditMode)
          = includedSum (items.map ensureItemDefaults) := by
        unfold includedSum
        rw [List.map_map]
        apply congrArg
        apply List.map_congr_left
        intro it _
        rfl
      simp only [recalcRoom, stripRoomEditModes, Room.mk.injEq, hitems, hsum2]
  cases inventory with
  | mk rooms tw =>
    have hrooms : (rooms.map stripRoomEditModes).map recalcRoom
        = (rooms.map recalcRoom).map stripRoomEditModes := by
      rw [List.map_map, List.map_map]
      apply List.map_congr_left
      intro rm _
      exact hroom rm
    have hweights : ((rooms.map recalcRoom).map stripRoomEditModes).map Room.roomWeight
        = (rooms.map recalcRoom).map Room.roomWeight := by
      rw [List.map_map]
      apply List.map_congr_left
      intro rm _
      rfl
    simp only [recalculateWeights, stripEditModes, Inventory.mk.injEq, hrooms, hweights]

/-- Claim C8: serializing any reachable inventory, deserializing and
recalculating reproduces the pre-serialization per-room and total weights;
the serialized form carries no `editMode` (any two states differing only in
edit modes serialize identically), and after deserialization every room and
item row has edit mode `none`. -/
theorem C8_serialization_roundtrip :
    (∀ s : AppState, Reachable s →
      (((recalculateWeights (deserializeInventory
          (serializeInventory s.inventory))).rooms.map Room.roomWeight)
        = s.inventory.rooms.map Room.roomWeight)
      ∧ (recalculateWeights (deserializeInventory
          (serializeInventory s.inventory))).totalWeight = s.inventory.totalWeight
      ∧ (∀ room ∈ (deserializeInventory (serializeInventory s.inventory)).rooms,
          room.editMode = none ∧ ∀ item ∈ room.items, item.editMode = none))
    ∧ (∀ inventory : Inventory,
        serializeInventory (stripEditModes inventory) = serializeInventory inventory) := by
  constructor
  · intro s h
    have hfix := reachable_recalc_fixed h
    have hstriprooms : (stripEditModes s.inventory).rooms.map Room.roomWeight
        = s.inventory.rooms.map Room.roomWeight := by
      show (s.inventory.rooms.map stripRoomEditModes).map Room.roomWeight = _
      rw [List.map_map]
      apply List.map_congr_left
      intro rm _
      rfl
    refine ⟨?_, ?_, ?_⟩
    · rw [roundtrip_eq_strip, recalc_strip_comm, hfix]
      exact hstriprooms
    · rw [roundtrip_eq_strip, recalc_strip_comm, hfix]
      rfl
    · rw [roundtrip_eq_strip]
      intro room hroom
      obtain ⟨rm, _, rfl⟩ := List.mem_map.1 hroom
      refine ⟨rfl, ?_⟩
      intro item hitem
      obtain ⟨it, _, rfl⟩ := List.mem_map.1 hitem
      rfl
  · intro inventory
    cases inventory with
    | mk rooms tw =>
      simp only [serializeInventory, stripEditModes, SInventory.mk.injEq, List.map_map]
      refine ⟨?_, trivial⟩
      apply List.map_congr_left
      intro rm _
      cases rm with
      | mk name items rw2 em =>
        simp only [Function.comp, serializeRoom, stripRoomEditModes, SRoom.mk.injEq,
          List.map_map]
        refine ⟨trivial, ?_, trivial⟩
        apply List.map_congr_left
        intro it _
        rfl

/-- Witness for C8 at a concrete reachable state holding one 40-pound box:
the round trip reproduces its room weights. -/
theorem C8_serialization_roundtrip_witness :
    (((recalculateWeights (deserializeInventory (serializeInventory
        (initialAppState (fixedInventory
          [fixedRoom "Den" [plainItem "a"]])).inventory))).rooms.map Room.roomWeight)
      = (initialAppState (fixedInventory
          [fixedRoom "Den" [plainItem "a"]])).inventory.rooms.map Room.roomWeight)
    ∧ (∀ room ∈ (deserializeInventory (serializeInventory
        (initialAppState (fixedInventory
          [fixedRoom "Den" [plainItem "a"]])).inventory)).rooms,
        room.editMode = none ∧ ∀ item ∈ room.items, item.editMode = none) := by
  have h := C8_serialization_roundtrip.1
    (initialAppState (fixedInventory [fixedRoom "Den" [plainItem "a"]]))
    (Reachable.init _)
  exact ⟨h.1, h.2.2⟩

/-- Counterexample to C9 as stated: the stored record "null" is
syntactically valid JSON, so `JSON.parse` succeeds and `loadInventory`
returns the parsed `null` unchanged — it is not replaced by the empty
initial state and no warning fires — and the subsequent recalculation
cannot succeed on it (reading `.rooms` of `null` throws), so the system
does fail to start on this corrupted record. -/
theorem C9_load_counterexample :
    loadInventoryJSON (some "null") = JSON.nullv
    ∧ (loadInventoryRaw (some "null")).2 = false
    ∧ loadInventoryJSON (some "null") ≠ initialInventoryJSON
    ∧ recalcJSOk (loadInventoryJSON (some "null")) = false := by
  have hparse : parseJSON "null" = some JSON.nullv := by with_unfolding_all rfl
  have hload : loadInventoryJSON (some "null") = JSON.nullv := by
    unfold loadInventoryJSON loadInventoryRaw
    show (match parseJSON "null" with
      | none => (initialInventoryJSON, true)
      | some v => (v, false)).1 = _
    rw [hparse]
  refine ⟨hload, ?_, ?_, ?_⟩
  · show (match parseJSON "null" with
      | none => (initialInventoryJSON, true)
      | some v => (v, false)).2 = false
    rw [hparse]
  · rw [hload]
    intro hcontra
    exact JSON.noConfusion hcontra
  · rw [hload]
    rfl

/-- Claim C9 (amended): `loadInventory` itself is total and never raises: a
missing record yields the empty initial state silently, and a record that
`JSON.parse` rejects is caught, logged as a warning and replaced by the
empty well-formed initial state, on which recalculation succeeds; but a
stored value that parses to JSON without the inventory shape is returned
as-is — only parse exceptions are caught — and the subsequent operations
need not succeed on it. -/
theorem C9_load_spec :
    (loadInventoryJSON none = initialInventoryJSON ∧ (loadInventoryRaw none).2 = false)
    ∧ (∀ stored : String, parseJSON stored = none →
        loadInventoryJSON (some stored) = initialInventoryJSON
        ∧ (loadInventoryRaw (some stored)).2 = true)
    ∧ (∀ (stored : String) (j : JSON), parseJSON stored = some j →
        loadInventoryJSON (some stored) = j ∧ (loadInventoryRaw (some stored)).2 = false)
    ∧ recalcJSOk initialInventoryJSON = true := by
  refine ⟨⟨rfl, rfl⟩, ?_, ?_, rfl⟩
  · intro stored hparse
    constructor
    · show (match parseJSON stored with
        | none => (initialInventoryJSON, true)
        | some v => (v, false)).1 = _
      rw [hparse]
    · show (match parseJSON stored with
        | none => (initialInventoryJSON, true)
        | some v => (v, false)).2 = true
      rw [hparse]
  · intro stored j hparse
    constructor
    · show (match parseJSON stored with
        | none => (initialInventoryJSON, true)
        | some v => (v, false)).1 = _
      rw [hparse]
    · show (match parseJSON stored with
        | none => (initialInventoryJSON, true)
        | some v => (v, false)).2 = false
      rw [hparse]

/-- Witness for the amended C9: the truncated record "[1," fails to parse,
is replaced by the warned-about empty initial state, and that state passes
the shape check recalculation needs. -/
theorem C9_load_spec_witness :
    (loadInventoryJSON (some "[1,") = initialInventoryJSON
      ∧ (loadInventoryRaw (some "[1,")).2 = true)
    ∧ recalcJSOk initialInventoryJSON = true :=
  ⟨C9_load_spec.2.1 "[1," (by with_unfolding_all rfl), C9_load_spec.2.2.2⟩

/-- Witness for C5: a positive numeric weight is kept, an unparsable weight
falls back to the Moving Box default. -/
theorem C5_resolveWeight_contract_witness :
    resolveWeight (JSValue.num 7) ⟨"Moving Box", 40⟩ = 7
    ∧ resolveWeight (JSValue.str "abc") ⟨"Moving Box", 40⟩ = 40 :=
  ⟨(C5_resolveWeight_contract.1 (JSValue.num 7) ⟨"Moving Box", 40⟩).1 7 rfl (by norm_num),
   (C5_resolveWeight_contract.2 ⟨"Moving Box", 40⟩).2.2.1⟩

end PCS
